import Mathlib

/-!
# Verification of the ts2rust semantic middle-end and back-end

A shallow embedding, in Lean 4, of the parts of the ts2rust transpiler that
the specification's testable properties talk about:

* the IR data model (`src/src/ir/types.ts`, `expressions.ts`, `statements.ts`,
  and the declaration forms),
* the derive-closure fixpoint `optimizeDerives` (codegen module entry point),
* the ownership/usage analyzer `analyzeFunction` (`src/src/analysis/ownership.ts`),
* the builtin-method registry and its name-based dispatch
  (`src/src/codegen/builtins/*`),
* the statement/expression/function code generators
  (`src/src/codegen/statements.ts`, the codegen expressions module, and
  `generateFunction` from the codegen declarations module).

TypeScript `Map`s are modelled as association lists with in-place update
(preserving insertion position, as `Map.set` does), `Set<string>` as a
duplicate-free-by-construction `List String`, optional fields as `Option`,
and the dynamic `number | string | boolean` literal payload as a closed
inductive that keeps track of integer-ness (the only property the code
inspects via `Number.isInteger`).
-/

namespace TsToRust

/-! ## IR types (`src/src/ir/types.ts`) -/

/-- `IRType` — the closed type variant set.  Primitive names are the literal
strings of the TypeScript `PrimitiveName` union ("f64", "i32", "String",
"&str", "bool", "void", "usize", "i64", "u32", "u64", "char"). -/
inductive IRType where
  | primitive (name : String)
  | array (elementType : IRType)
  | structT (name : String)
  | enumT (name : String)
  | tuple (elements : List IRType)
  | optional (innerType : IRType)
  | reference (innerType : IRType) (mutableFlag : Bool)
  | function (params : List IRType) (returnType : IRType)

/-- `isVoidType` from `src/src/codegen` / `ir`. -/
def isVoidType : IRType → Bool
  | .primitive n => n == "void"
  | _ => false

/-- `isOwnedStringType` (`src/src/ir/types.ts`). -/
def isOwnedStringType : IRType → Bool
  | .primitive n => n == "String"
  | _ => false

/-! `isCopyType` (`src/src/ir/types.ts` lines 201-218): primitives other than
`String` are Copy, tuples of Copy elements are Copy, `&T` is Copy but
`&mut T` is not, an enum is Copy iff its name is in `knownCopyEnums`,
and arrays and structs fall through to `false`.  The TypeScript default
argument `knownCopyEnums = new Set()` is made explicit at call sites. -/
mutual

/-- See the section comment above. -/
def isCopyType (ty : IRType) (knownCopyEnums : List String) : Bool :=
  match ty with
  | .primitive name => name != "String"
  | .tuple elements => isCopyTypeList elements knownCopyEnums
  | .reference _ mutableFlag => !mutableFlag
  | .enumT name => knownCopyEnums.contains name
  | _ => false

/-- `type.elements.every(t => isCopyType(t, knownCopyEnums))`. -/
def isCopyTypeList (elements : List IRType) (knownCopyEnums : List String) : Bool :=
  match elements with
  | [] => true
  | t :: rest => isCopyType t knownCopyEnums && isCopyTypeList rest knownCopyEnums

end

/-- `needsClone` (`src/src/ir/types.ts` line 229). -/
def needsClone (ty : IRType) (knownCopyEnums : List String) : Bool :=
  !(isCopyType ty knownCopyEnums)

/-! ## IR expressions and statements
(`src/src/ir/expressions.ts`, `src/src/ir/statements.ts`)

The literal payload `number | string | boolean` is modelled by `LitValue`;
JavaScript numbers are split into integer-valued numbers (rendered by
`toString` exactly as JS renders integers) and non-integer numbers carried
by their JS `toString` rendering, which is all the code ever inspects. -/

inductive LitValue where
  | numInt (n : Int)
  | numNonInt (repr : String)
  | strV (s : String)
  | boolV (b : Bool)

/-- A closure parameter (`IRClosure.params` element): name plus optional type. -/
structure ClosureParam where
  name : String
  ty : Option IRType

/-- A field of a struct pattern (`IRPattern` struct case). -/
structure PatternField where
  field : String
  binding : String

mutual

/-- `IRExpression` (`src/src/ir/expressions.ts`).  Constructor fields follow
the TypeScript interfaces; `nspace` is the source's `namespace` field
(a Lean keyword). -/
inductive IRExpression where
  | literal (value : LitValue) (ty : IRType) (isInteger : Option Bool)
  | identifier (name : String) (resolvedType : Option IRType)
  | binary (operator : String) (left : IRExpression) (right : IRExpression)
  | unary (operator : String) (operand : IRExpression)
  | call (callee : String) (args : List IRExpression)
  | methodCall (object : IRExpression) (method : String) (args : List IRExpression)
      (nspace : Option String) (objectType : Option IRType)
  | index (object : IRExpression) (idx : IRExpression)
  | property (object : IRExpression) (prop : String)
      (objectType : Option IRType) (resolvedType : Option IRType)
  | arrayLiteral (elements : List IRExpression) (elementType : IRType)
  | structLiteral (structName : String) (fields : List StructFieldInit)
  | tupleLiteral (elements : List IRExpression)
  | enumVariant (enumName : String) (variant : String) (data : Option (List IRExpression))
  | closure (params : List ClosureParam) (body : ClosureBody) (returnType : Option IRType)
  | ternary (condition : IRExpression) (thenExpr : IRExpression) (elseExpr : IRExpression)
  | cast (expression : IRExpression) (targetType : IRType)

/-- One `{ name, value }` entry of an aggregate (struct) literal. -/
inductive StructFieldInit where
  | mk (name : String) (value : IRExpression)

/-- The body of an `IRClosure`: a bare expression or an `IRClosureBody`. -/
inductive ClosureBody where
  | expr (e : IRExpression)
  | stmts (statements : List IRStatement) (returnExpr : Option IRExpression)

/-- `IRStatement` (`src/src/ir/statements.ts`).  Keyword clashes are resolved
by suffixing (`ifS` for `if`, `ret` for `return`, ...). -/
inductive IRStatement where
  | varDecl (name : String) (ty : IRType) (mutableFlag : Bool) (init : IRExpression)
  | assign (target : IRExpression) (value : IRExpression)
  | ret (value : Option IRExpression)
  | breakS (label : Option String)
  | continueS (label : Option String)
  | ifS (condition : IRExpression) (thenBranch : List IRStatement)
      (elseBranch : Option (List IRStatement))
  | whileS (condition : IRExpression) (body : List IRStatement) (label : Option String)
  | forIn (variableName : String) (mutableFlag : Bool) (iterable : IRExpression)
      (body : List IRStatement) (label : Option String)
  | switchS (discriminant : IRExpression) (cases : List SwitchCase)
  | matchS (expression : IRExpression) (arms : List MatchArm)
  | blockS (statements : List IRStatement)
  | exprStmt (expression : IRExpression)

/-- `IRSwitchCase`: value (none = default case), body, fallthrough flag. -/
inductive SwitchCase where
  | mk (value : Option IRExpression) (body : List IRStatement) (fallthrough : Bool)

/-- `IRMatchArm`: pattern, optional guard, body. -/
inductive MatchArm where
  | mk (pattern : IRPattern) (guard : Option IRExpression) (body : List IRStatement)

/-- `IRPattern` (`src/src/ir/statements.ts`). -/
inductive IRPattern where
  | wildcard
  | literalP (value : IRExpression)
  | identifierP (name : String) (mutableFlag : Option Bool)
  | enumVariantP (enumName : String) (variant : String) (bindings : Option (List String))
  | structP (structName : String) (fields : List PatternField)
  | tupleP (elements : List IRPattern)
  | orP (patterns : List IRPattern)

end

/-! ## Declarations (`IRStruct`, `IREnum`, ... ) -/

/-- `IRStructField`. -/
structure IRStructField where
  name : String
  ty : IRType
  isPublic : Bool

/-- `IRStruct`: name, ordered fields, derive list. -/
structure IRStruct where
  name : String
  fields : List IRStructField
  derives : List String

/-- `IREnumVariantDef`: unit, tuple-shaped or struct-shaped variant. -/
inductive IREnumVariantDef where
  | unit (name : String) (value : Option Int)
  | tupleV (name : String) (fields : List IRType)
  | structV (name : String) (fields : List IRStructField)

/-- `IREnum`: name, ordered variants, derive list. -/
structure IREnum where
  name : String
  variants : List IREnumVariantDef
  derives : List String

/-- `IRTypeAlias`. -/
structure IRTypeAlias where
  name : String
  ty : IRType

/-- `IRParam`. -/
structure IRParam where
  name : String
  ty : IRType

/-- `IRFunction`: params, return type, body, visibility. -/
structure IRFunction where
  name : String
  params : List IRParam
  returnType : IRType
  body : List IRStatement
  isPublic : Bool

/-- `IRMethod` (member of an impl block); `receiver` is one of
"self", "&self", "&mut self". -/
structure IRMethod where
  name : String
  params : List IRParam
  returnType : IRType
  body : List IRStatement
  receiver : String
  isPublic : Bool

/-- `IRImpl`. -/
structure IRImpl where
  typeName : String
  methods : List IRMethod

/-- `IRDeclaration` — the top-level declaration union. -/
inductive IRDeclaration where
  | structD (s : IRStruct)
  | enumD (e : IREnum)
  | typeAliasD (t : IRTypeAlias)
  | functionD (f : IRFunction)
  | implD (i : IRImpl)

/-- The name of an aggregate (struct) declaration, when it is one. -/
def structName? : IRDeclaration → Option String
  | .structD s => some s.name
  | _ => none

/-- The derive list of a struct or enum declaration, when it has one. -/
def declDerives? : IRDeclaration → Option (List String)
  | .structD s => some s.derives
  | .enumD e => some e.derives
  | _ => none

/-! ## Derive-closure (`optimizeDerives`, codegen module entry point)

The source mutates `program.declarations` in place and keeps a local
`Set<string>` of Copy type names; we thread both explicitly.  `Set.add` is
modelled by `setAdd` (no-op when present). -/

/-- `Set<string>.add`. -/
def setAdd (s : List String) (n : String) : List String :=
  if s.contains n then s else s ++ [n]

/-- The seed loop of `optimizeDerives` (lines 36-45): collect every enum
declaration whose derive list contains "Copy". -/
def collectCopyEnums (decls : List IRDeclaration) : List String :=
  decls.foldl
    (fun acc d =>
      match d with
      | .enumD e => if e.derives.contains "Copy" then setAdd acc e.name else acc
      | _ => acc)
    []

/-! `isFieldTypeCopy` (lines 48-63), the per-field duplicability test local to
`optimizeDerives`: primitives other than `String`, tuples of such, ANY
reference (`return true; // &T is Copy`), and enums/structs already in the
copy set.  Arrays (and everything else) are not Copy. -/
mutual

/-- See the section comment above. -/
def isFieldTypeCopy (copyTypes : List String) : IRType → Bool
  | .primitive name => name != "String"
  | .tuple elements => isFieldTypeCopyList copyTypes elements
  | .reference _ _ => true
  | .enumT name => copyTypes.contains name
  | .structT name => copyTypes.contains name
  | _ => false

/-- `type.elements?.every(isFieldTypeCopy) ?? false` (the elements list is
always present on a tuple type, and `every` of an empty list is `true`). -/
def isFieldTypeCopyList (copyTypes : List String) : List IRType → Bool
  | [] => true
  | t :: rest => isFieldTypeCopy copyTypes t && isFieldTypeCopyList copyTypes rest

end

/-- Push "Copy" onto a derive list unless already present (lines 86-88). -/
def pushCopy (derives : List String) : List String :=
  if derives.contains "Copy" then derives else derives ++ ["Copy"]

/-- One iteration of the fixpoint loop (lines 75-92): walk the declarations
in order; an untagged struct whose fields all pass `isFieldTypeCopy` under
the *current* set is added to the set, gets "Copy" pushed onto its derives,
and flips the change flag.  Returns (set, declarations, changed). -/
def runPass (c : List String) :
    List IRDeclaration → List String × List IRDeclaration × Bool
  | [] => (c, [], false)
  | .structD s :: rest =>
    if c.contains s.name then
      let (c', rest', ch) := runPass c rest
      (c', .structD s :: rest', ch)
    else if s.fields.all (fun f => isFieldTypeCopy c f.ty) then
      let s' : IRStruct := { s with derives := pushCopy s.derives }
      let (c', rest', _) := runPass (setAdd c s.name) rest
      (c', .structD s' :: rest', true)
    else
      let (c', rest', ch) := runPass c rest
      (c', .structD s :: rest', ch)
  | d :: rest =>
    let (c', rest', ch) := runPass c rest
    (c', d :: rest', ch)

/-- The `while (changed && iteration < maxIterations)` loop, fuel-indexed:
up to `fuel` passes, stopping as soon as a pass reports no change. -/
def derivesLoop : Nat → List String → List IRDeclaration →
    List String × List IRDeclaration
  | 0, c, ds => (c, ds)
  | fuel + 1, c, ds =>
    let (c', ds', ch) := runPass c ds
    if ch then derivesLoop fuel c' ds' else (c', ds')

/-- `optimizeDerives` with the iteration cap as a parameter (the source fixes
`maxIterations = 10`).  Returns the final copy-type set together with the
updated declarations. -/
def optimizeDerivesWithCap (cap : Nat) (decls : List IRDeclaration) :
    List String × List IRDeclaration :=
  derivesLoop cap (collectCopyEnums decls) decls

/-- `optimizeDerives` (lines 34-94): the declaration list after the fixpoint,
with `maxIterations = 10` as in the source. -/
def optimizeDerives (decls : List IRDeclaration) : List IRDeclaration :=
  (optimizeDerivesWithCap 10 decls).2

/-- The final local `copyTypes` set of `optimizeDerives` (exposed for the
statements of the theorems below). -/
def optimizeDerivesSet (decls : List IRDeclaration) : List String :=
  (optimizeDerivesWithCap 10 decls).1

/-! ## Ownership/usage analyzer (`src/src/analysis/ownership.ts`)

`variables` is a TypeScript `Map<string, VariableUsage>`; we model it as an
association list where `varsSet` replaces in place (keeping insertion
position) and `varsBump` mutates the entry found by `get`. -/

/-- `VariableUsage` (ownership.ts lines 21-32). -/
structure VariableUsage where
  name : String
  ty : IRType
  reads : Nat
  writes : Nat
  moved : Bool
  usageLocations : List Nat

/-- The `variables` map. -/
abbrev Vars := List (String × VariableUsage)

/-- `Map.set`: replace the entry (keeping its position) or append. -/
def varsSet (vars : Vars) (k : String) (v : VariableUsage) : Vars :=
  match vars with
  | [] => [(k, v)]
  | (k', v') :: rest =>
    if k' = k then (k, v) :: rest else (k', v') :: varsSet rest k v

/-- The `const usage = variables.get(name); if (usage) ...` pattern of
`collectFromExpression`: bump the read or write counter in place, leaving
the map unchanged when the name is absent. -/
def varsBump (vars : Vars) (k : String) (isWrite : Bool) : Vars :=
  match vars with
  | [] => []
  | (k', u) :: rest =>
    if k' = k then
      (k', if isWrite then { u with writes := u.writes + 1 }
           else { u with reads := u.reads + 1 }) :: rest
    else (k', u) :: varsBump rest k isWrite

/-- `Map.get`. -/
def varsGet (vars : Vars) (k : String) : Option VariableUsage :=
  match vars with
  | [] => none
  | (k', u) :: rest => if k' = k then some u else varsGet rest k

mutual

/-- `collectFromStatement` (ownership.ts lines 107-183). -/
def collectFromStatement (stmt : IRStatement) (vars : Vars) : Vars :=
  match stmt with
  | .varDecl name ty _ init =>
    let vars := varsSet vars name
      { name := name, ty := ty, reads := 0, writes := 1, moved := false,
        usageLocations := [] }
    collectFromExpression init false vars
  | .assign target value =>
    collectFromExpression value false (collectFromExpression target true vars)
  | .ret value =>
    match value with
    | some v => collectFromExpression v false vars
    | none => vars
  | .ifS condition thenBranch elseBranch =>
    let vars := collectVariables thenBranch (collectFromExpression condition false vars)
    match elseBranch with
    | some es => collectVariables es vars
    | none => vars
  | .whileS condition body _ =>
    collectVariables body (collectFromExpression condition false vars)
  | .forIn _ _ iterable body _ =>
    -- Loop variable is implicitly declared (and, as in the source, not added)
    collectVariables body (collectFromExpression iterable false vars)
  | .switchS discriminant cases =>
    collectFromCases cases (collectFromExpression discriminant false vars)
  | .matchS expression arms =>
    collectFromArms arms (collectFromExpression expression false vars)
  | .exprStmt expression => collectFromExpression expression false vars
  | .blockS statements => collectVariables statements vars
  | .breakS _ => vars
  | .continueS _ => vars

/-- `collectVariables` (lines 98-105). -/
def collectVariables (statements : List IRStatement) (vars : Vars) : Vars :=
  match statements with
  | [] => vars
  | s :: rest => collectVariables rest (collectFromStatement s vars)

/-- The `for (const c of stmt.cases)` loop of the `switch` case. -/
def collectFromCases (cases : List SwitchCase) (vars : Vars) : Vars :=
  match cases with
  | [] => vars
  | .mk value body _ :: rest =>
    let vars := match value with
      | some v => collectFromExpression v false vars
      | none => vars
    collectFromCases rest (collectVariables body vars)

/-- The `for (const arm of stmt.arms)` loop of the `match` case. -/
def collectFromArms (arms : List MatchArm) (vars : Vars) : Vars :=
  match arms with
  | [] => vars
  | .mk _ guard body :: rest =>
    let vars := match guard with
      | some g => collectFromExpression g false vars
      | none => vars
    collectFromArms rest (collectVariables body vars)

/-- `collectFromExpression` (lines 185-261).  Expression kinds without a
`case` in the source switch (literals, enum variants, closures) fall
through and leave the map unchanged. -/
def collectFromExpression (expr : IRExpression) (isWrite : Bool) (vars : Vars) : Vars :=
  match expr with
  | .identifier name _ => varsBump vars name isWrite
  | .binary _ left right =>
    collectFromExpression right false (collectFromExpression left false vars)
  | .unary _ operand => collectFromExpression operand false vars
  | .call _ args => collectFromExprList args vars
  | .methodCall object _ args _ _ =>
    collectFromExprList args (collectFromExpression object false vars)
  | .index object idx =>
    collectFromExpression idx false (collectFromExpression object false vars)
  | .property object _ _ _ => collectFromExpression object false vars
  | .arrayLiteral elements _ => collectFromExprList elements vars
  | .structLiteral _ fields => collectFromFieldInits fields vars
  | .tupleLiteral elements => collectFromExprList elements vars
  | .ternary condition thenExpr elseExpr =>
    collectFromExpression elseExpr false
      (collectFromExpression thenExpr false
        (collectFromExpression condition false vars))
  | .cast expression _ => collectFromExpression expression false vars
  | _ => vars

/-- The `for (const arg of ...)` loops over expression lists. -/
def collectFromExprList (exprs : List IRExpression) (vars : Vars) : Vars :=
  match exprs with
  | [] => vars
  | e :: rest => collectFromExprList rest (collectFromExpression e false vars)

/-- The `for (const field of expr.fields)` loop of the `struct_literal` case. -/
def collectFromFieldInits (fields : List StructFieldInit) (vars : Vars) : Vars :=
  match fields with
  | [] => vars
  | .mk _ value :: rest =>
    collectFromFieldInits rest (collectFromExpression value false vars)

end

/-- `FunctionAnalysis` (ownership.ts lines 34-41); `needsClone` is the
source's `needsClone : Set<string>` field. -/
structure FunctionAnalysis where
  name : String
  /-- the source's `variables` map (`variables` is a reserved word here) -/
  varsMap : Vars
  needsClone : List String
  canBorrow : List String

/-- One step of the classification loop of `analyzeFunction` (ownership.ts
lines 72-85): `needsClone(usage.type)` — with the *default empty*
known-Copy-enum set — gates adding names read more than once to
`needsClone`; names with exactly one read and one write go to `canBorrow`. -/
def classifyStep (acc : List String × List String)
    (p : String × VariableUsage) : List String × List String :=
  let acc1 := if needsClone p.2.ty [] then
      (if 1 < p.2.reads then setAdd acc.1 p.1 else acc.1)
    else acc.1
  let acc2 := if p.2.reads = 1 ∧ p.2.writes = 1 then setAdd acc.2 p.1 else acc.2
  (acc1, acc2)

/-- `analyzeFunction` (ownership.ts lines 63-93). -/
def analyzeFunction (func : IRFunction) : FunctionAnalysis :=
  let vars := collectVariables func.body []
  let sets := vars.foldl classifyStep ([], [])
  { name := func.name, varsMap := vars,
    needsClone := sets.1, canBorrow := sets.2 }

/-! ## Codegen utilities (`src/src/codegen/types.ts`) -/

/-- `toSnakeCase` (codegen/types.ts lines 13-24): already-snake-case names
(contain an underscore and no uppercase letter) pass through; otherwise an
underscore is inserted before every uppercase letter, everything is
lowercased, and a single leading underscore is stripped. -/
def toSnakeCase (name : String) : String :=
  if name.data.contains '_' ∧ ¬ name.data.any Char.isUpper then name
  else
    let expanded := name.data.foldr
      (fun c acc => if c.isUpper then '_' :: c :: acc else c :: acc) []
    let lowered := expanded.map Char.toLower
    match lowered with
    | '_' :: rest => String.mk rest
    | l => String.mk l

/-- One character of `escapeString` (codegen/types.ts lines 85-92).  The
source applies five global `replace` passes; since the replacements never
produce characters that an earlier pass rewrote *after* that pass has run,
this is exactly a character-by-character expansion. -/
def escapeChar (c : Char) : List Char :=
  if c = '\\' then ['\\', '\\']
  else if c = '"' then ['\\', '"']
  else if c = '\n' then ['\\', 'n']
  else if c = '\r' then ['\\', 'r']
  else if c = '\t' then ['\\', 't']
  else [c]

/-- `escapeString`. -/
def escapeString (s : String) : String :=
  String.mk ((s.data.map escapeChar).flatten)

/-- `indent` (codegen/types.ts line 97): `'    '.repeat(level)`. -/
def indent (level : Nat) : String :=
  String.mk (List.replicate (4 * level) ' ')

mutual

/-- `irTypeToRust` (codegen/types.ts lines 42-74). -/
def irTypeToRust : IRType → String
  | .primitive name => if name = "void" then "()" else name
  | .array elementType => "Vec<" ++ irTypeToRust elementType ++ ">"
  | .structT name => name
  | .enumT name => name
  | .tuple elements =>
    "(" ++ String.intercalate ", " (irTypeToRustList elements) ++ ")"
  | .optional innerType => "Option<" ++ irTypeToRust innerType ++ ">"
  | .reference innerType mutableFlag =>
    if mutableFlag then "&mut " ++ irTypeToRust innerType
    else "&" ++ irTypeToRust innerType
  | .function params returnType =>
    "fn(" ++ String.intercalate ", " (irTypeToRustList params)
      ++ ") -> " ++ irTypeToRust returnType

/-- The `elements.map(irTypeToRust)` maps of the tuple and function cases. -/
def irTypeToRustList : List IRType → List String
  | [] => []
  | t :: rest => irTypeToRust t :: irTypeToRustList rest

end

/-- `mightNeedStringConversion` (codegen/types.ts lines 113-118): string
literals and identifiers. -/
def mightNeedStringConversion : IRExpression → Bool
  | .literal (.strV _) _ _ => true
  | .identifier _ _ => true
  | _ => false

/-- `coerceToString` (codegen/types.ts lines 123-128): wrap with
`.to_string()` when flowing into an owned-`String` position. -/
def coerceToString (exprStr : String) (expr : IRExpression)
    (targetType : Option IRType) : String :=
  match targetType with
  | some t =>
    if isOwnedStringType t ∧ mightNeedStringConversion expr then
      exprStr ++ ".to_string()"
    else exprStr
  | none => exprStr

/-! ## Builtin method registry (`src/src/codegen/builtins/*`)

`BuiltinMethodHandler` is the interface from the builtins type module;
handler tables are association lists in source order, looked up with
`List.lookup` (`Record` property access).

JavaScript quirks preserved: `args[i]` out of range renders as the string
"undefined" inside a template literal, and `args[i] || dflt` treats both a
missing argument and the empty string as falsy. -/

/-- `args[i]` under a template literal. -/
def jsIndex (args : List String) (i : Nat) : String :=
  (args.get? i).getD "undefined"

/-- `args[i] || dflt`. -/
def jsIndexOr (args : List String) (i : Nat) (dflt : String) : String :=
  match args.get? i with
  | some a => if a = "" then dflt else a
  | none => dflt

/-- `BuiltinMethodHandler` (builtins type module). -/
structure BuiltinMethodHandler where
  generateRust : Option String → List String → List IRExpression → String
  mutates : Bool
  isStatement : Bool
  returnType : Option String

/-- Render `${obj}` for the `object: string | null` parameter (namespaced
handlers are called with `null`, which never reaches a template). -/
def objStr (obj : Option String) : String := obj.getD "null"

/-- Modelled from the spec: the builtins type module that defines
`buildPrintln` (the logging facility's emission template) is not among the
provided sources; this model follows the repository's earlier console
builtin implementation (empty-argument short form, otherwise a
format-string with one placeholder per argument, prefixed by the label).
No claim in this development depends on its output. -/
def buildPrintln (macroName : String) (label : String) (args : List String)
    (_rawArgs : List IRExpression) : String :=
  if args.isEmpty then
    if label = "" then macroName ++ "!()"
    else macroName ++ "!(\"" ++ label ++ "\")"
  else
    let formatStr := String.intercalate " " (args.map (fun _ => "\x7b\x7d"))
    let prefixed := if label = "" then formatStr else label ++ " " ++ formatStr
    macroName ++ "!(\"" ++ prefixed ++ "\", " ++ String.intercalate ", " args ++ ")"

/-- `consoleBuiltins` (`src/src/codegen/builtins/console.ts`). -/
def consoleBuiltins : List (String × BuiltinMethodHandler) :=
  [ ("log",
     { generateRust := fun _ args rawArgs => buildPrintln "println" "" args rawArgs,
       mutates := false, isStatement := true, returnType := none }),
    ("error",
     { generateRust := fun _ args rawArgs => buildPrintln "eprintln" "" args rawArgs,
       mutates := false, isStatement := true, returnType := none }),
    ("warn",
     { generateRust := fun _ args rawArgs => buildPrintln "eprintln" "[WARN]" args rawArgs,
       mutates := false, isStatement := true, returnType := none }),
    ("info",
     { generateRust := fun _ args rawArgs => buildPrintln "println" "[INFO]" args rawArgs,
       mutates := false, isStatement := true, returnType := none }),
    ("debug",
     { generateRust := fun _ args rawArgs => buildPrintln "println" "[DEBUG]" args rawArgs,
       mutates := false, isStatement := true, returnType := none }),
    ("assert",
     { generateRust := fun _ args _ =>
         if args.length = 0 then "assert!(false)"
         else if args.length = 1 then "assert!(" ++ jsIndex args 0 ++ ")"
         else "assert!(" ++ jsIndex args 0 ++ ", "
           ++ String.intercalate ", " (args.drop 1) ++ ")",
       mutates := false, isStatement := true, returnType := none }),
    ("time",
     { generateRust := fun _ args _ =>
         "// console.time(" ++ jsIndexOr args 0 "\"default\""
           ++ ") - timing not implemented",
       mutates := false, isStatement := true, returnType := none }),
    ("timeEnd",
     { generateRust := fun _ args _ =>
         "// console.timeEnd(" ++ jsIndexOr args 0 "\"default\""
           ++ ") - timing not implemented",
       mutates := false, isStatement := true, returnType := none }) ]

/-- `arrayBuiltins` (`src/src/codegen/builtins/array.ts`), in source order. -/
def arrayBuiltins : List (String × BuiltinMethodHandler) :=
  [ ("push",
     { generateRust := fun obj args _ => objStr obj ++ ".push(" ++ jsIndex args 0 ++ ")",
       mutates := true, isStatement := true, returnType := none }),
    ("pop",
     { generateRust := fun obj _ _ => objStr obj ++ ".pop().unwrap()",
       mutates := true, isStatement := false, returnType := some "element" }),
    ("shift",
     { generateRust := fun obj _ _ => objStr obj ++ ".remove(0)",
       mutates := true, isStatement := false, returnType := some "element" }),
    ("unshift",
     { generateRust := fun obj args _ => objStr obj ++ ".insert(0, " ++ jsIndex args 0 ++ ")",
       mutates := true, isStatement := true, returnType := none }),
    ("splice",
     { generateRust := fun obj args _ =>
         let start := jsIndexOr args 0 "0"
         let deleteCountTruthy := match args.get? 1 with
           | some d => d != ""
           | none => false
         if deleteCountTruthy && (args.length == 2) then
           objStr obj ++ ".drain(" ++ start ++ " as usize..(" ++ start
             ++ " as usize + " ++ jsIndex args 1 ++ " as usize)).collect::<Vec<_>>()"
         else if 2 < args.length then
           "\x7b let _start = " ++ start ++ " as usize; " ++ objStr obj
             ++ ".drain(_start.._start + " ++ jsIndexOr args 1 "0"
             ++ " as usize); /* insert items */ \x7d"
         else
           objStr obj ++ ".drain(" ++ start ++ " as usize..).collect::<Vec<_>>()",
       mutates := true, isStatement := false, returnType := some "Vec" }),
    ("reverse",
     { generateRust := fun obj _ _ => objStr obj ++ ".reverse()",
       mutates := true, isStatement := true, returnType := none }),
    ("sort",
     { generateRust := fun obj args _ =>
         if args.length = 0 then
           objStr obj ++ ".sort_by(|a, b| a.partial_cmp(b).unwrap())"
         else
           objStr obj ++ ".sort_by(|a, b| a.partial_cmp(b).unwrap())"
             ++ " /* custom comparator not fully supported */",
       mutates := true, isStatement := true, returnType := none }),
    ("fill",
     { generateRust := fun obj args _ =>
         let value := jsIndex args 0
         if args.length = 1 then objStr obj ++ ".fill(" ++ value ++ ")"
         else
           objStr obj ++ "[" ++ jsIndexOr args 1 "0" ++ " as usize.."
             ++ jsIndexOr args 2 (objStr obj ++ ".len()") ++ " as usize].fill("
             ++ value ++ ")",
       mutates := true, isStatement := true, returnType := none }),
    ("copyWithin",
     { generateRust := fun obj args _ =>
         objStr obj ++ ".copy_within(" ++ jsIndexOr args 1 "0" ++ " as usize.."
           ++ jsIndexOr args 2 (objStr obj ++ ".len()") ++ " as usize, "
           ++ jsIndex args 0 ++ " as usize)",
       mutates := true, isStatement := true, returnType := none }),
    ("slice",
     { generateRust := fun obj args rawArgs =>
         if args.length = 0 then objStr obj ++ ".clone()"
         else
           let arg0IsLiteral := match rawArgs.get? 0 with
             | some (.literal (.numInt _) _ _) => true
             | _ => false
           let arg1IsLiteral := match rawArgs.get? 1 with
             | some (.literal (.numInt _) _ _) => true
             | _ => false
           if args.length = 1 then
             if arg0IsLiteral then objStr obj ++ "[" ++ jsIndex args 0 ++ "..].to_vec()"
             else objStr obj ++ "[" ++ jsIndex args 0 ++ " as usize..].to_vec()"
           else
             let start := if arg0IsLiteral then jsIndex args 0
               else jsIndex args 0 ++ " as usize"
             let stop := if arg1IsLiteral then jsIndex args 1
               else jsIndex args 1 ++ " as usize"
             objStr obj ++ "[" ++ start ++ ".." ++ stop ++ "].to_vec()",
       mutates := false, isStatement := false, returnType := some "Vec" }),
    ("concat",
     { generateRust := fun obj args _ =>
         if args.length = 0 then objStr obj ++ ".clone()"
         else
           "[" ++ objStr obj ++ ".as_slice(), "
             ++ String.intercalate ", " (args.map (fun a => a ++ ".as_slice()"))
             ++ "].concat()",
       mutates := false, isStatement := false, returnType := some "Vec" }),
    ("join",
     { generateRust := fun obj args _ =>
         objStr obj ++ ".iter().map(|x| x.to_string()).collect::<Vec<_>>().join("
           ++ jsIndexOr args 0 "\",\"" ++ ")",
       mutates := false, isStatement := false, returnType := some "String" }),
    ("flat",
     { generateRust := fun obj _ _ =>
         objStr obj ++ ".into_iter().flatten().collect::<Vec<_>>()",
       mutates := false, isStatement := false, returnType := some "Vec" }),
    ("indexOf",
     { generateRust := fun obj args _ =>
         objStr obj ++ ".iter().position(|x| *x == " ++ jsIndex args 0
           ++ ").map(|i| i as i32).unwrap_or(-1)",
       mutates := false, isStatement := false, returnType := some "i32" }),
    ("lastIndexOf",
     { generateRust := fun obj args _ =>
         objStr obj ++ ".iter().rposition(|x| *x == " ++ jsIndex args 0
           ++ ").map(|i| i as i32).unwrap_or(-1)",
       mutates := false, isStatement := false, returnType := some "i32" }),
    ("includes",
     { generateRust := fun obj args _ =>
         objStr obj ++ ".contains(&" ++ jsIndex args 0 ++ ")",
       mutates := false, isStatement := false, returnType := some "bool" }),
    ("find",
     { generateRust := fun obj _ _ =>
         objStr obj ++ ".iter().find(|&x| /* predicate */).cloned()",
       mutates := false, isStatement := false, returnType := some "Option" }),
    ("findIndex",
     { generateRust := fun obj _ _ =>
         objStr obj ++ ".iter().position(|x| /* predicate */).map(|i| i as i32).unwrap_or(-1)",
       mutates := false, isStatement := false, returnType := some "i32" }),
    ("forEach",
     { generateRust := fun obj _ _ =>
         objStr obj ++ ".iter().for_each(|x| \x7b /* callback */ \x7d)",
       mutates := false, isStatement := true, returnType := none }),
    ("map",
     { generateRust := fun obj _ _ =>
         objStr obj ++ ".iter().map(|x| /* callback */).collect::<Vec<_>>()",
       mutates := false, isStatement := false, returnType := some "Vec" }),
    ("filter",
     { generateRust := fun obj _ _ =>
         objStr obj ++ ".iter().filter(|x| /* predicate */).cloned().collect::<Vec<_>>()",
       mutates := false, isStatement := false, returnType := some "Vec" }),
    ("reduce",
     { generateRust := fun obj args _ =>
         objStr obj ++ ".iter().fold(" ++ jsIndexOr args 1 "0.0"
           ++ ", |acc, x| /* reducer */)",
       mutates := false, isStatement := false, returnType := some "element" }),
    ("reduceRight",
     { generateRust := fun obj args _ =>
         objStr obj ++ ".iter().rev().fold(" ++ jsIndexOr args 1 "0.0"
           ++ ", |acc, x| /* reducer */)",
       mutates := false, isStatement := false, returnType := some "element" }),
    ("every",
     { generateRust := fun obj _ _ => objStr obj ++ ".iter().all(|x| /* predicate */)",
       mutates := false, isStatement := false, returnType := some "bool" }),
    ("some",
     { generateRust := fun obj _ _ => objStr obj ++ ".iter().any(|x| /* predicate */)",
       mutates := false, isStatement := false, returnType := some "bool" }),
    ("at",
     { generateRust := fun obj args _ =>
         let idx := jsIndex args 0
         "if " ++ idx ++ " >= 0.0 \x7b " ++ objStr obj ++ ".get(" ++ idx
           ++ " as usize).cloned() \x7d else \x7b " ++ objStr obj ++ ".get(("
           ++ objStr obj ++ ".len() as f64 + " ++ idx
           ++ ") as usize).cloned() \x7d.unwrap()",
       mutates := false, isStatement := false, returnType := some "element" }),
    ("toString",
     { generateRust := fun obj _ _ => "format!(\"\x7b:?\x7d\", " ++ objStr obj ++ ")",
       mutates := false, isStatement := false, returnType := some "String" }) ]

/-- `stringBuiltins` (`src/src/codegen/builtins/string.ts`), in source order. -/
def stringBuiltins : List (String × BuiltinMethodHandler) :=
  [ ("charAt",
     { generateRust := fun obj args _ =>
         objStr obj ++ ".chars().nth(" ++ jsIndex args 0
           ++ " as usize).map(|c| c.to_string()).unwrap_or_default()",
       mutates := false, isStatement := false, returnType := some "String" }),
    ("charCodeAt",
     { generateRust := fun obj args _ =>
         objStr obj ++ ".chars().nth(" ++ jsIndex args 0
           ++ " as usize).map(|c| c as u32 as f64).unwrap_or(f64::NAN)",
       mutates := false, isStatement := false, returnType := some "f64" }),
    ("concat",
     { generateRust := fun obj args _ =>
         "format!(\"\x7b\x7d\x7b\x7d\", " ++ objStr obj ++ ", "
           ++ String.intercalate ", " args ++ ")",
       mutates := false, isStatement := false, returnType := some "String" }),
    ("includes",
     { generateRust := fun obj args _ =>
         objStr obj ++ ".contains(" ++ jsIndex args 0 ++ ")",
       mutates := false, isStatement := false, returnType := some "bool" }),
    ("indexOf",
     { generateRust := fun obj args _ =>
         objStr obj ++ ".find(" ++ jsIndex args 0 ++ ").map(|i| i as i32).unwrap_or(-1)",
       mutates := false, isStatement := false, returnType := some "i32" }),
    ("lastIndexOf",
     { generateRust := fun obj args _ =>
         objStr obj ++ ".rfind(" ++ jsIndex args 0 ++ ").map(|i| i as i32).unwrap_or(-1)",
       mutates := false, isStatement := false, returnType := some "i32" }),
    ("slice",
     { generateRust := fun obj args _ =>
         if args.length = 1 then
           objStr obj ++ "[" ++ jsIndex args 0 ++ " as usize..].to_string()"
         else
           objStr obj ++ "[" ++ jsIndex args 0 ++ " as usize.." ++ jsIndex args 1
             ++ " as usize].to_string()",
       mutates := false, isStatement := false, returnType := some "String" }),
    ("substring",
     { generateRust := fun obj args _ =>
         if args.length = 1 then
           objStr obj ++ "[" ++ jsIndex args 0 ++ " as usize..].to_string()"
         else
           objStr obj ++ "[" ++ jsIndex args 0 ++ " as usize.." ++ jsIndex args 1
             ++ " as usize].to_string()",
       mutates := false, isStatement := false, returnType := some "String" }),
    ("toLowerCase",
     { generateRust := fun obj _ _ => objStr obj ++ ".to_lowercase()",
       mutates := false, isStatement := false, returnType := some "String" }),
    ("toUpperCase",
     { generateRust := fun obj _ _ => objStr obj ++ ".to_uppercase()",
       mutates := false, isStatement := false, returnType := some "String" }),
    ("trim",
     { generateRust := fun obj _ _ => objStr obj ++ ".trim().to_string()",
       mutates := false, isStatement := false, returnType := some "String" }),
    ("trimStart",
     { generateRust := fun obj _ _ => objStr obj ++ ".trim_start().to_string()",
       mutates := false, isStatement := false, returnType := some "String" }),
    ("trimEnd",
     { generateRust := fun obj _ _ => objStr obj ++ ".trim_end().to_string()",
       mutates := false, isStatement := false, returnType := some "String" }),
    ("split",
     { generateRust := fun obj args _ =>
         objStr obj ++ ".split(" ++ jsIndexOr args 0 "\"\""
           ++ ").map(|s| s.to_string()).collect::<Vec<String>>()",
       mutates := false, isStatement := false, returnType := some "Vec<String>" }),
    ("replace",
     { generateRust := fun obj args _ =>
         objStr obj ++ ".replacen(" ++ jsIndex args 0 ++ ", " ++ jsIndex args 1 ++ ", 1)",
       mutates := false, isStatement := false, returnType := some "String" }),
    ("replaceAll",
     { generateRust := fun obj args _ =>
         objStr obj ++ ".replace(" ++ jsIndex args 0 ++ ", " ++ jsIndex args 1 ++ ")",
       mutates := false, isStatement := false, returnType := some "String" }),
    ("repeat",
     { generateRust := fun obj args _ =>
         objStr obj ++ ".repeat(" ++ jsIndex args 0 ++ " as usize)",
       mutates := false, isStatement := false, returnType := some "String" }),
    ("startsWith",
     { generateRust := fun obj args _ =>
         objStr obj ++ ".starts_with(" ++ jsIndex args 0 ++ ")",
       mutates := false, isStatement := false, returnType := some "bool" }),
    ("endsWith",
     { generateRust := fun obj args _ =>
         objStr obj ++ ".ends_with(" ++ jsIndex args 0 ++ ")",
       mutates := false, isStatement := false, returnType := some "bool" }),
    ("padStart",
     { generateRust := fun obj args _ =>
         "format!(\"\x7b:>width$\x7d\", " ++ objStr obj ++ ", width = "
           ++ jsIndex args 0 ++ " as usize)",
       mutates := false, isStatement := false, returnType := some "String" }),
    ("padEnd",
     { generateRust := fun obj args _ =>
         "format!(\"\x7b:<width$\x7d\", " ++ objStr obj ++ ", width = "
           ++ jsIndex args 0 ++ " as usize)",
       mutates := false, isStatement := false, returnType := some "String" }),
    ("toString",
     { generateRust := fun obj _ _ => objStr obj ++ ".to_string()",
       mutates := false, isStatement := false, returnType := some "String" }),
    ("length",
     { generateRust := fun obj _ _ => objStr obj ++ ".len()",
       mutates := false, isStatement := false, returnType := some "usize" }) ]

/-- `mathBuiltins` (`src/src/codegen/builtins/math.ts`), in source order. -/
def mathBuiltins : List (String × BuiltinMethodHandler) :=
  let unaryMath := fun (rustName : String) =>
    { generateRust := fun _ args _ => "(" ++ jsIndex args 0 ++ ")." ++ rustName ++ "()",
      mutates := false, isStatement := false,
      returnType := some "f64" : BuiltinMethodHandler }
  [ ("abs", unaryMath "abs"),
    ("floor", unaryMath "floor"),
    ("ceil", unaryMath "ceil"),
    ("round", unaryMath "round"),
    ("trunc", unaryMath "trunc"),
    ("sqrt", unaryMath "sqrt"),
    ("pow",
     { generateRust := fun _ args _ =>
         "(" ++ jsIndex args 0 ++ ").powf(" ++ jsIndex args 1 ++ ")",
       mutates := false, isStatement := false, returnType := some "f64" }),
    ("min",
     { generateRust := fun _ args _ =>
         if args.length = 2 then
           "(" ++ jsIndex args 0 ++ ").min(" ++ jsIndex args 1 ++ ")"
         else
           "[" ++ String.intercalate ", " args
             ++ "].iter().cloned().fold(f64::INFINITY, f64::min)",
       mutates := false, isStatement := false, returnType := some "f64" }),
    ("max",
     { generateRust := fun _ args _ =>
         if args.length = 2 then
           "(" ++ jsIndex args 0 ++ ").max(" ++ jsIndex args 1 ++ ")"
         else
           "[" ++ String.intercalate ", " args
             ++ "].iter().cloned().fold(f64::NEG_INFINITY, f64::max)",
       mutates := false, isStatement := false, returnType := some "f64" }),
    ("sin", unaryMath "sin"),
    ("cos", unaryMath "cos"),
    ("tan", unaryMath "tan"),
    ("asin", unaryMath "asin"),
    ("acos", unaryMath "acos"),
    ("atan", unaryMath "atan"),
    ("atan2",
     { generateRust := fun _ args _ =>
         "(" ++ jsIndex args 0 ++ ").atan2(" ++ jsIndex args 1 ++ ")",
       mutates := false, isStatement := false, returnType := some "f64" }),
    ("log", unaryMath "ln"),
    ("log10", unaryMath "log10"),
    ("log2", unaryMath "log2"),
    ("exp", unaryMath "exp"),
    ("random",
     { generateRust := fun _ _ _ => "rand::random::<f64>()",
       mutates := false, isStatement := false, returnType := some "f64" }),
    ("sign", unaryMath "signum"),
    ("cbrt", unaryMath "cbrt"),
    ("hypot",
     { generateRust := fun _ args _ =>
         "(" ++ jsIndex args 0 ++ ").hypot(" ++ jsIndex args 1 ++ ")",
       mutates := false, isStatement := false, returnType := some "f64" }) ]

/-- `mathConstants` (`src/src/codegen/builtins/math.ts`). -/
def mathConstants (p : String) : Option String :=
  List.lookup p
    [ ("PI", "std::f64::consts::PI"),
      ("E", "std::f64::consts::E"),
      ("LN2", "std::f64::consts::LN_2"),
      ("LN10", "std::f64::consts::LN_10"),
      ("LOG2E", "std::f64::consts::LOG2_E"),
      ("LOG10E", "std::f64::consts::LOG10_E"),
      ("SQRT2", "std::f64::consts::SQRT_2"),
      ("SQRT1_2", "std::f64::consts::FRAC_1_SQRT_2") ]

/-- `getBuiltinMethod` (`src/src/codegen/builtins/index.ts` lines 45-50):
`builtinRegistry[namespace]?.methods[method]` over the fixed registry
console / Array / String / Math. -/
def getBuiltinMethod (ns : String) (method : String) : Option BuiltinMethodHandler :=
  match ns with
  | "console" => List.lookup method consoleBuiltins
  | "Array" => List.lookup method arrayBuiltins
  | "String" => List.lookup method stringBuiltins
  | "Math" => List.lookup method mathBuiltins
  | _ => none

/-- `getArrayMethod`. -/
def getArrayMethod (method : String) : Option BuiltinMethodHandler :=
  List.lookup method arrayBuiltins

/-- `getStringMethod`. -/
def getStringMethod (method : String) : Option BuiltinMethodHandler :=
  List.lookup method stringBuiltins

/-- The `stringOnlyMethods` list of `resolveMethodByName`
(`src/src/codegen/builtins/index.ts` lines 116-121). -/
def stringOnlyMethods : List String :=
  [ "toUpperCase", "toLowerCase", "trim", "trimStart", "trimEnd",
    "charAt", "charCodeAt", "substring", "replace", "replaceAll",
    "split", "repeat", "startsWith", "endsWith", "padStart", "padEnd" ]

/-- The `arrayOnlyMethods` list (lines 124-128). -/
def arrayOnlyMethods : List String :=
  [ "push", "pop", "shift", "unshift", "splice", "reverse", "sort",
    "fill", "copyWithin", "flat", "map", "filter",
    "reduce", "reduceRight", "forEach", "every", "some", "find", "findIndex", "at" ]

/-- `resolveMethodByName` (lines 114-144): string-exclusive names go to the
text table, array-exclusive names to the sequence table, and ambiguous
names try the sequence (array) table first, falling back to the text
table. -/
def resolveMethodByName (methodName : String) : Option BuiltinMethodHandler :=
  if stringOnlyMethods.contains methodName then getStringMethod methodName
  else if arrayOnlyMethods.contains methodName then getArrayMethod methodName
  else
    match getArrayMethod methodName with
    | some arrayHandler => some arrayHandler
    | none => getStringMethod methodName

/-! ## Expression code generation (codegen expressions module)

The source decomposes `generateExpression` into per-kind helper functions
(`generateMethodCall(expr)`, `generateIndex(expr)`, ...), each taking the
narrowed expression node.  Here the recursion is a single structural
function (so that it computes by `rfl`/`decide`) whose per-kind arms are
the helpers' bodies; each helper is then defined below with the source's
own signature, and agrees with the corresponding arm definitionally. -/

/-- `generateLiteral` (codegen expressions module lines 87-103).  Integer
values print bare; non-integer values print their JS rendering, forced to
contain a decimal point unless the literal's `isInteger` flag is set. -/
def generateLiteral (value : LitValue) (isInteger : Option Bool) : String :=
  match value with
  | .numInt n => toString n
  | .numNonInt repr =>
    if isInteger.getD false then repr
    else if repr.data.contains '.' then repr else repr ++ ".0"
  | .strV s => "\"" ++ escapeString s ++ "\""
  | .boolV b => if b then "true" else "false"

mutual

/-- `generateExpression` (codegen expressions module lines 23-73), with the
helper bodies (lines 109-227) inlined per arm.

In the method-call arm, the `if (expr.objectType)` branch of the source is
empty ("Type-aware resolution would go here ... fall back to name-based
resolution"), so a namespace-free call always dispatches through
`resolveMethodByName`. -/
def generateExpression : IRExpression → String
  | .literal value _ isInteger => generateLiteral value isInteger
  | .identifier name _ => toSnakeCase name
  | .binary operator left right =>
    generateExpression left ++ " " ++ operator ++ " " ++ generateExpression right
  | .unary operator operand => operator ++ generateExpression operand
  | .call callee args =>
    toSnakeCase callee ++ "(" ++ String.intercalate ", " (generateExprList args) ++ ")"
  | .methodCall object method args nspace _ =>
    -- `generateMethodCall` (lines 114-142)
    let argStrs := generateExprList args
    match nspace with
    | some ns =>
      match getBuiltinMethod ns method with
      | some handler => handler.generateRust none argStrs args
      | none => "/* " ++ ns ++ "." ++ method ++ " not supported */"
    | none =>
      let obj := generateExpression object
      match resolveMethodByName method with
      | some handler => handler.generateRust (some obj) argStrs args
      | none =>
        obj ++ "." ++ toSnakeCase method ++ "(" ++ String.intercalate ", " argStrs ++ ")"
  | .index object idx =>
    -- `generateIndex` (lines 148-161)
    let obj := generateExpression object
    let i := generateExpression idx
    (match idx with
     | .literal (.numInt _) _ _ => obj ++ "[" ++ i ++ "]"
     | _ => obj ++ "[" ++ i ++ " as usize]")
  | .property object prop _ _ =>
    -- `generatePropertyAccess` (lines 163-181)
    let obj := generateExpression object
    (match object, mathConstants prop with
     | .identifier "Math" _, some constant => constant
     | _, _ =>
       if prop = "length" then obj ++ ".len()"
       else obj ++ "." ++ toSnakeCase prop)
  | .arrayLiteral elements _ =>
    "vec![" ++ String.intercalate ", " (generateExprList elements) ++ "]"
  | .structLiteral structName fields =>
    -- `generateStructLiteral` (lines 187-192)
    structName ++ " \x7b " ++ String.intercalate ", " (generateFieldInits fields) ++ " \x7d"
  | .tupleLiteral elements =>
    "(" ++ String.intercalate ", " (generateExprList elements) ++ ")"
  | .enumVariant enumName variant data =>
    -- `generateEnumVariant` (lines 194-200)
    (match data with
     | none => enumName ++ "::" ++ variant
     | some ds =>
       if ds.isEmpty then enumName ++ "::" ++ variant
       else enumName ++ "::" ++ variant ++ "("
         ++ String.intercalate ", " (generateExprList ds) ++ ")")
  | .ternary condition thenExpr elseExpr =>
    -- `generateTernary` (lines 202-207)
    "if " ++ generateExpression condition ++ " \x7b " ++ generateExpression thenExpr
      ++ " \x7d else \x7b " ++ generateExpression elseExpr ++ " \x7d"
  | .cast expression targetType =>
    "(" ++ generateExpression expression ++ " as " ++ irTypeToRust targetType ++ ")"
  | .closure params body _ =>
    -- `generateClosure` (lines 209-227)
    let paramStr := String.intercalate ", " (params.map
      (fun p => match p.ty with
        | some t => toSnakeCase p.name ++ ": " ++ irTypeToRust t
        | none => toSnakeCase p.name))
    (match body with
     | .stmts _ _ => "|" ++ paramStr ++ "| \x7b /* closure body */ \x7d"
     | .expr e => "|" ++ paramStr ++ "| " ++ generateExpression e)

/-- The `expr.args.map(generateExpression)` / element-list maps. -/
def generateExprList : List IRExpression → List String
  | [] => []
  | e :: rest => generateExpression e :: generateExprList rest

/-- The `expr.fields.map(...)` of `generateStructLiteral`. -/
def generateFieldInits : List StructFieldInit → List String
  | [] => []
  | .mk name value :: rest =>
    (toSnakeCase name ++ ": " ++ generateExpression value) :: generateFieldInits rest

end

/-- `generateMethodCall` (lines 114-142), with the source's signature. -/
def generateMethodCall (object : IRExpression) (method : String)
    (args : List IRExpression) (nspace : Option String)
    (_objectType : Option IRType) : String :=
  let argStrs := generateExprList args
  match nspace with
  | some ns =>
    match getBuiltinMethod ns method with
    | some handler => handler.generateRust none argStrs args
    | none => "/* " ++ ns ++ "." ++ method ++ " not supported */"
  | none =>
    let obj := generateExpression object
    match resolveMethodByName method with
    | some handler => handler.generateRust (some obj) argStrs args
    | none =>
      obj ++ "." ++ toSnakeCase method ++ "(" ++ String.intercalate ", " argStrs ++ ")"

/-- `generateStructLiteral` (lines 187-192), with the source's signature. -/
def generateStructLiteral (structName : String) (fields : List StructFieldInit) : String :=
  structName ++ " \x7b " ++ String.intercalate ", " (generateFieldInits fields) ++ " \x7d"

/-- `generateExpressionWithType` (lines 78-81). -/
def generateExpressionWithType (expr : IRExpression) (targetType : Option IRType) : String :=
  coerceToString (generateExpression expr) expr targetType

/-! ## Statement code generation (`src/src/codegen/statements.ts`)

As with expressions, the source decomposes `generateStatement` into per-kind
helpers (`generateIf(stmt, ...)`, `generateSwitch(stmt, ...)`, ...) that take
the narrowed statement plus the already-computed indentation string `ind`
(always `indent(indentLevel)`).  The recursion is a single structural
function with the helper bodies inlined; the helpers are then defined below
with the source's signatures and agree with the arms definitionally. -/

mutual

/-- `generatePattern` (statements.ts lines 279-300). -/
def generatePattern : IRPattern → String
  | .wildcard => "_"
  | .literalP value => generateExpression value
  | .identifierP name mutableFlag =>
    (if mutableFlag.getD false then "mut " else "") ++ toSnakeCase name
  | .enumVariantP enumName variant bindings =>
    (match bindings with
     | none => enumName ++ "::" ++ variant
     | some bs =>
       if bs.isEmpty then enumName ++ "::" ++ variant
       else enumName ++ "::" ++ variant ++ "(" ++ String.intercalate ", " bs ++ ")")
  | .structP structName fields =>
    structName ++ " \x7b "
      ++ String.intercalate ", " (fields.map (fun f => f.field ++ ": " ++ f.binding))
      ++ " \x7d"
  | .tupleP elements =>
    "(" ++ String.intercalate ", " (generatePatternList elements) ++ ")"
  | .orP patterns =>
    String.intercalate " | " (generatePatternList patterns)

/-- The `pattern.elements.map(generatePattern)` / `pattern.patterns.map(...)`
maps of the tuple and or patterns. -/
def generatePatternList : List IRPattern → List String
  | [] => []
  | p :: rest => generatePattern p :: generatePatternList rest

end

/-- `generateVariable` (statements.ts lines 86-103): the declared type is
spelled out only for arrays, structs and enums. -/
def generateVariable (name : String) (ty : IRType) (mutableFlag : Bool)
    (init : IRExpression) (ind : String) : List String :=
  let mutKeyword := if mutableFlag then "mut " else ""
  let varName := toSnakeCase name
  let initStr := generateExpression init
  match ty with
  | .array _ | .structT _ | .enumT _ =>
    [ind ++ "let " ++ mutKeyword ++ varName ++ ": " ++ irTypeToRust ty
      ++ " = " ++ initStr ++ ";"]
  | _ => [ind ++ "let " ++ mutKeyword ++ varName ++ " = " ++ initStr ++ ";"]

/-- `generateReturn` (statements.ts lines 106-125): in tail position of a
non-void function the value is emitted bare — no `return` keyword, no
terminator; a bare `return;` in that position is dropped entirely. -/
def generateReturn (value : Option IRExpression) (ind : String)
    (isLastInNonVoidFn : Bool) (returnType : Option IRType) : List String :=
  match value with
  | some v =>
    let valueStr := generateExpressionWithType v returnType
    if isLastInNonVoidFn then [ind ++ valueStr]
    else [ind ++ "return " ++ valueStr ++ ";"]
  | none =>
    if !isLastInNonVoidFn then [ind ++ "return;"] else []

/-- The statement-only-builtin test of `generateExpressionStmt`
(statements.ts lines 309-324): a namespaced method call whose registry
handler is flagged `isStatement`, or a bare method call whose name resolves
in the sequence (array) table to a handler flagged `isStatement`. -/
def isStatementOnlyCall : IRExpression → Bool
  | .methodCall _ method _ (some ns) _ =>
    (match getBuiltinMethod ns method with
     | some handler => handler.isStatement
     | none => false)
  | .methodCall _ method _ none _ =>
    (match getArrayMethod method with
     | some handler => handler.isStatement
     | none => false)
  | _ => false

/-- `generateExpressionStmt` (statements.ts lines 302-331): statement-only
builtin calls always get a terminator; otherwise the terminator is dropped
exactly in tail position of a non-void function. -/
def generateExpressionStmt (expression : IRExpression) (ind : String)
    (isLastInNonVoidFn : Bool) : List String :=
  let exprStr := generateExpression expression
  if isStatementOnlyCall expression then [ind ++ exprStr ++ ";"]
  else if isLastInNonVoidFn then [ind ++ exprStr]
  else [ind ++ exprStr ++ ";"]

mutual

/-- `generateStatement` (statements.ts lines 15-79), with the control-flow
helper bodies (lines 130-269) inlined per arm. -/
def generateStatement (stmt : IRStatement) (indentLevel : Nat)
    (isLastInNonVoidFn : Bool) (returnType : Option IRType) : List String :=
  let ind := indent indentLevel
  match stmt with
  | .varDecl name ty mutableFlag init => generateVariable name ty mutableFlag init ind
  | .assign target value =>
    [ind ++ generateExpression target ++ " = " ++ generateExpression value ++ ";"]
  | .ret value => generateReturn value ind isLastInNonVoidFn returnType
  | .ifS condition thenBranch elseBranch =>
    -- `generateIf` (lines 130-159): the then-branch keeps the tail flag only
    -- when there is no else-branch
    [ind ++ "if " ++ generateExpression condition ++ " \x7b"]
      ++ generateStmtSeq thenBranch (indentLevel + 1)
          (isLastInNonVoidFn && elseBranch.isNone) returnType
      ++ (match elseBranch with
          | some es =>
            [ind ++ "\x7d else \x7b"]
              ++ generateStmtSeq es (indentLevel + 1) isLastInNonVoidFn returnType
          | none => [])
      ++ [ind ++ "\x7d"]
  | .whileS condition body label =>
    -- `generateWhile` (lines 161-177)
    [ind ++ (match label with | some l => "\x27" ++ l ++ ": " | none => "")
        ++ "while " ++ generateExpression condition ++ " \x7b"]
      ++ generateStmtSeq body (indentLevel + 1) false returnType
      ++ [ind ++ "\x7d"]
  | .forIn variableName mutableFlag iterable body label =>
    -- `generateForIn` (lines 179-197)
    [ind ++ (match label with | some l => "\x27" ++ l ++ ": " | none => "")
        ++ "for " ++ (if mutableFlag then "mut " else "") ++ toSnakeCase variableName
        ++ " in " ++ generateExpression iterable ++ ".iter() \x7b"]
      ++ generateStmtSeq body (indentLevel + 1) false returnType
      ++ [ind ++ "\x7d"]
  | .switchS discriminant cases =>
    -- `generateSwitch` (lines 210-244): one arm per case (`_` for a default
    -- case), plus a catch-all `_ => {}` arm iff no case is a default case
    [ind ++ "match " ++ generateExpression discriminant ++ " \x7b"]
      ++ generateSwitchCases cases ind indentLevel returnType
      ++ (if cases.any (fun c => match c with | .mk v _ _ => v.isNone) then []
          else [ind ++ "    _ => \x7b\x7d"])
      ++ [ind ++ "\x7d"]
  | .matchS expression arms =>
    -- `generateMatch` (lines 246-269)
    [ind ++ "match " ++ generateExpression expression ++ " \x7b"]
      ++ generateMatchArms arms ind indentLevel returnType
      ++ [ind ++ "\x7d"]
  | .breakS _ => [ind ++ "break;"]
  | .continueS _ => [ind ++ "continue;"]
  | .exprStmt expression => generateExpressionStmt expression ind isLastInNonVoidFn
  | .blockS statements =>
    generateStmtSeq statements indentLevel isLastInNonVoidFn returnType

/-- The per-statement loop pattern `isLast && isLastInNonVoidFn` used by
function bodies, block statements and branch bodies: every statement but
the last is generated with the flag forced to `false`.  Passing
`lastFlag = false` yields the plain `for (const s of body)` loops. -/
def generateStmtSeq (statements : List IRStatement) (indentLevel : Nat)
    (lastFlag : Bool) (returnType : Option IRType) : List String :=
  match statements with
  | [] => []
  | [s] => generateStatement s indentLevel lastFlag returnType
  | s :: rest =>
    generateStatement s indentLevel false returnType
      ++ generateStmtSeq rest indentLevel lastFlag returnType

/-- The `for (const caseItem of stmt.cases)` loop of `generateSwitch`. -/
def generateSwitchCases (cases : List SwitchCase) (ind : String)
    (indentLevel : Nat) (returnType : Option IRType) : List String :=
  match cases with
  | [] => []
  | .mk value body _ :: rest =>
    (match value with
      | none => [ind ++ "    _ => \x7b"]
      | some v => [ind ++ "    " ++ generateExpression v ++ " => \x7b"])
      ++ generateStmtSeq body (indentLevel + 2) false returnType
      ++ [ind ++ "    \x7d"]
      ++ generateSwitchCases rest ind indentLevel returnType

/-- The `for (const arm of stmt.arms)` loop of `generateMatch`. -/
def generateMatchArms (arms : List MatchArm) (ind : String)
    (indentLevel : Nat) (returnType : Option IRType) : List String :=
  match arms with
  | [] => []
  | .mk pattern guard body :: rest =>
    [ind ++ "    " ++ generatePattern pattern
        ++ (match guard with
            | some g => " if " ++ generateExpression g
            | none => "")
        ++ " => \x7b"]
      ++ generateStmtSeq body (indentLevel + 2) false returnType
      ++ [ind ++ "    \x7d"]
      ++ generateMatchArms rest ind indentLevel returnType

end

/-- `generateSwitch` (statements.ts lines 210-244), with the source's
signature. -/
def generateSwitch (discriminant : IRExpression) (cases : List SwitchCase)
    (ind : String) (indentLevel : Nat) (returnType : Option IRType) : List String :=
  [ind ++ "match " ++ generateExpression discriminant ++ " \x7b"]
    ++ generateSwitchCases cases ind indentLevel returnType
    ++ (if cases.any (fun c => match c with | .mk v _ _ => v.isNone) then []
        else [ind ++ "    _ => \x7b\x7d"])
    ++ [ind ++ "\x7d"]

/-! ## Function code generation (codegen declarations module) -/

/-- The function signature line of `generateFunction` (codegen declarations
module lines 22-30). -/
def functionSignature (func : IRFunction) : String :=
  let params := String.intercalate ", "
    (func.params.map (fun p => toSnakeCase p.name ++ ": " ++ irTypeToRust p.ty))
  let retStr := if isVoidType func.returnType then ""
    else " -> " ++ irTypeToRust func.returnType
  let pubKeyword := if func.isPublic then "pub " else ""
  pubKeyword ++ "fn " ++ toSnakeCase func.name ++ "(" ++ params ++ ")" ++ retStr ++ " \x7b"

/-- The `lines` array of `generateFunction` (lines 19-43): signature, then
each body statement with the tail flag `isLast && !isVoidType(returnType)`,
then the closing brace. -/
def generateFunctionLines (func : IRFunction) : List String :=
  functionSignature func
    :: generateStmtSeq func.body 1 (!isVoidType func.returnType) (some func.returnType)
    ++ ["\x7d"]

/-- `generateFunction`: the lines joined with newlines. -/
def generateFunction (func : IRFunction) : String :=
  String.intercalate "\n" (generateFunctionLines func)

/-! ## Concrete programs used in the claims below -/

/-- A tagged-enum with one unit (data-free) variant, carrying the default
derive list of the IR constructor `enumDecl` — which does NOT include
"Copy". -/
def unitEnumNoCopy : IREnum :=
  { name := "E", variants := [.unit "A" (some 0)],
    derives := ["Debug", "Clone", "PartialEq"] }

/-- The parser's enum form: unit variants and a derive list containing
"Copy" (`src/src/parser/declarations.ts` line 216). -/
def parserStyleEnum : IREnum :=
  { name := "Color", variants := [.unit "Red" (some 0), .unit "Green" (some 1)],
    derives := ["Debug", "Clone", "Copy", "PartialEq", "Eq"] }

/-- An aggregate whose only field has mutable-reference type. -/
def mutRefStruct : IRStruct :=
  { name := "S",
    fields := [{ name := "r", ty := .reference (.primitive "i32") true,
                 isPublic := true }],
    derives := ["Debug", "Clone"] }

/-- Keys of the `variables` map. -/
def varsKeys (l : Vars) : List String := l.map Prod.fst


/-- A type of aggregate or tagged-enum kind (the two registry-looked-up
kinds of the trivially-duplicable definition). -/
def isEnumOrStructType : IRType → Bool
  | .enumT _ => true
  | .structT _ => true
  | _ => false

/-- A function whose local `x` has tagged-enum type `Color` and is read
twice: `let x: Color = 0; x + x;`. -/
def readTwiceFn : IRFunction :=
  { name := "f", params := [], returnType := .primitive "void",
    body := [ .varDecl "x" (.enumT "Color") false
                (.literal (.numInt 0) (.primitive "i32") (some true)),
              .exprStmt (.binary "+" (.identifier "x" none) (.identifier "x" none)) ],
    isPublic := false }

/-- The usage record `analyzeFunction` computes for `x` in `readTwiceFn`. -/
def readTwiceUsage : VariableUsage :=
  { name := "x", ty := .enumT "Color", reads := 2, writes := 1, moved := false,
    usageLocations := [] }

/-- A function with an owned-text local `a` read twice and an owned-text
local `b` read once. -/
def c6Fn : IRFunction :=
  { name := "h", params := [], returnType := .primitive "void",
    body := [ .varDecl "a" (.primitive "String") false
                (.literal (.strV "s") (.primitive "String") none),
              .exprStmt (.binary "+" (.identifier "a" none) (.identifier "a" none)),
              .varDecl "b" (.primitive "String") false
                (.literal (.strV "t") (.primitive "String") none),
              .exprStmt (.identifier "b" none) ],
    isPublic := false }

/-- The usage records `analyzeFunction` computes for `a` and `b` in `c6Fn`. -/
def c6UsageA : VariableUsage :=
  { name := "a", ty := .primitive "String", reads := 2, writes := 1, moved := false,
    usageLocations := [] }

def c6UsageB : VariableUsage :=
  { name := "b", ty := .primitive "String", reads := 1, writes := 1, moved := false,
    usageLocations := [] }

/-- `v.push(x)` — a builtin method call whose array-table handler is
statement-only. -/
def pushCallExpr : IRExpression :=
  .methodCall (.identifier "v" none) "push" [.identifier "x" none] none none

/-- A non-void function whose final statement is the statement-only builtin
call `v.push(x);`. -/
def pushTailFn : IRFunction :=
  { name := "g", params := [], returnType := .primitive "i32",
    body := [.exprStmt pushCallExpr], isPublic := false }

/-- A non-void function ending in `return x + 1;`. -/
def c8RetFn : IRFunction :=
  { name := "h", params := [], returnType := .primitive "i32",
    body := [ .exprStmt (.identifier "y" none),
              .ret (some (.binary "+" (.identifier "x" none)
                (.literal (.numInt 1) (.primitive "i32") (some true)))) ],
    isPublic := false }

/-- A non-void function whose final statement is the plain expression
statement `x;`. -/
def c8ExprFn : IRFunction :=
  { name := "k", params := [], returnType := .primitive "i32",
    body := [.exprStmt (.identifier "x" none)], isPublic := false }

/-- A wildcard match-arm line of a lowered switch at indentation `ind`:
either a default case's `_ => {` arm header or the appended catch-all
`_ => {}` arm. -/
def wildcardPred (ind : String) (l : String) : Bool :=
  l == ind ++ "    _ => \x7b" || l == ind ++ "    _ => \x7b\x7d"

/-- How many wildcard match-arm lines a generated line list contains. -/
def countWildcardArmLines (lines : List String) (ind : String) : Nat :=
  lines.countP (wildcardPred ind)

/-- A (degenerate) switch with two default cases. -/
def twoDefaultSwitch : IRStatement :=
  .switchS (.literal (.numInt 1) (.primitive "i32") (some true))
    [.mk none [] false, .mk none [] false]

/-- A switch with one value case and one default case. -/
def c10Switch : List SwitchCase :=
  [.mk (some (.literal (.numInt 1) (.primitive "i32") (some true)))
      [.breakS none] false,
   .mk none [] false]

/-- A pair of mutually recursive structs: `A` has a field of type `B` and
vice versa. -/
def c3StructA : IRStruct :=
  { name := "A",
    fields := [{ name := "b", ty := .structT "B", isPublic := true }],
    derives := ["Debug", "Clone"] }

/-- See `c3StructA`. -/
def c3StructB : IRStruct :=
  { name := "B",
    fields := [{ name := "a", ty := .structT "A", isPublic := true }],
    derives := ["Debug", "Clone"] }

/-- The two mutually recursive structs as a program. -/
def c3Decls : List IRDeclaration := [.structD c3StructA, .structD c3StructB]

/-- The declaration-level relation between a declaration and its possible
states after derive-closure passes: unchanged, or (for a struct) with
"Copy" pushed onto its derive list.  Qualification in `runPass` never reads
the derive list, so related lists drive identical pass dynamics. -/
def relD (d d2 : IRDeclaration) : Prop :=
  d2 = d ∨ ∃ s : IRStruct, d = .structD s
    ∧ d2 = .structD { s with derives := pushCopy s.derives }

/-! ## Theorems

Bridging lemmas: the helper functions above agree with the inlined arms
of the recursive generators (definitionally). -/

theorem generateExpression_methodCall (object : IRExpression) (method : String)
    (args : List IRExpression) (nspace : Option String) (objectType : Option IRType) :
    generateExpression (.methodCall object method args nspace objectType) =
      generateMethodCall object method args nspace objectType := rfl

theorem generateExpression_structLiteral (structName : String)
    (fields : List StructFieldInit) :
    generateExpression (.structLiteral structName fields) =
      generateStructLiteral structName fields := rfl

theorem generateStatement_switch (discriminant : IRExpression)
    (cases : List SwitchCase) (indentLevel : Nat) (isLastInNonVoidFn : Bool)
    (returnType : Option IRType) :
    generateStatement (.switchS discriminant cases) indentLevel isLastInNonVoidFn
        returnType =
      generateSwitch discriminant cases (indent indentLevel) indentLevel returnType := rfl

/-! ## Helper lemmas: the copy-type set -/

theorem mem_setAdd {s : List String} {n m : String} :
    n ∈ setAdd s m ↔ n ∈ s ∨ n = m := by
  unfold setAdd
  split
  · next h =>
    constructor
    · exact Or.inl
    · rintro (hn | rfl)
      · exact hn
      · simpa using h
  · simp [List.mem_append]

/-- Generalized characterization of the seed fold. -/
theorem mem_collectCopyEnums_aux (decls : List IRDeclaration) (acc : List String)
    (n : String) :
    n ∈ decls.foldl
        (fun acc d =>
          match d with
          | .enumD e => if e.derives.contains "Copy" then setAdd acc e.name else acc
          | _ => acc) acc ↔
      n ∈ acc ∨ ∃ e : IREnum, .enumD e ∈ decls ∧ e.name = n ∧ "Copy" ∈ e.derives := by
  induction decls generalizing acc with
  | nil => simp
  | cons d rest ih =>
    cases d with
    | enumD e =>
      by_cases hc : e.derives.contains "Copy"
      · simp only [List.foldl_cons, hc, if_true, ih, mem_setAdd]
        constructor
        · rintro ((hn | rfl) | ⟨e', he', rfl, hce'⟩)
          · exact Or.inl hn
          · exact Or.inr ⟨e, by simp, rfl, by simpa using hc⟩
          · exact Or.inr ⟨e', by simp [he'], rfl, hce'⟩
        · rintro (hn | ⟨e', he', rfl, hce'⟩)
          · exact Or.inl (Or.inl hn)
          · rcases List.mem_cons.mp he' with heq | hmem
            · cases heq
              exact Or.inl (Or.inr rfl)
            · exact Or.inr ⟨e', hmem, rfl, hce'⟩
      · simp only [List.foldl_cons, hc, if_false, ih]
        constructor
        · rintro (hn | ⟨e', he', rfl, hce'⟩)
          · exact Or.inl hn
          · exact Or.inr ⟨e', by simp [he'], rfl, hce'⟩
        · rintro (hn | ⟨e', he', rfl, hce'⟩)
          · exact Or.inl hn
          · rcases List.mem_cons.mp he' with heq | hmem
            · cases heq
              exact absurd hce' (by simpa using hc)
            · exact Or.inr ⟨e', hmem, rfl, hce'⟩
    | structD s =>
      simp only [List.foldl_cons, ih]
      constructor
      · rintro (hn | ⟨e', he', rfl, hce'⟩)
        · exact Or.inl hn
        · exact Or.inr ⟨e', by simp [he'], rfl, hce'⟩
      · rintro (hn | ⟨e', he', rfl, hce'⟩)
        · exact Or.inl hn
        · rcases List.mem_cons.mp he' with heq | hmem
          · cases heq
          · exact Or.inr ⟨e', hmem, rfl, hce'⟩
    | typeAliasD t =>
      simp only [List.foldl_cons, ih]
      constructor
      · rintro (hn | ⟨e', he', rfl, hce'⟩)
        · exact Or.inl hn
        · exact Or.inr ⟨e', by simp [he'], rfl, hce'⟩
      · rintro (hn | ⟨e', he', rfl, hce'⟩)
        · exact Or.inl hn
        · rcases List.mem_cons.mp he' with heq | hmem
          · cases heq
          · exact Or.inr ⟨e', hmem, rfl, hce'⟩
    | functionD f =>
      simp only [List.foldl_cons, ih]
      constructor
      · rintro (hn | ⟨e', he', rfl, hce'⟩)
        · exact Or.inl hn
        · exact Or.inr ⟨e', by simp [he'], rfl, hce'⟩
      · rintro (hn | ⟨e', he', rfl, hce'⟩)
        · exact Or.inl hn
        · rcases List.mem_cons.mp he' with heq | hmem
          · cases heq
          · exact Or.inr ⟨e', hmem, rfl, hce'⟩
    | implD i =>
      simp only [List.foldl_cons, ih]
      constructor
      · rintro (hn | ⟨e', he', rfl, hce'⟩)
        · exact Or.inl hn
        · exact Or.inr ⟨e', by simp [he'], rfl, hce'⟩
      · rintro (hn | ⟨e', he', rfl, hce'⟩)
        · exact Or.inl hn
        · rcases List.mem_cons.mp he' with heq | hmem
          · cases heq
          · exact Or.inr ⟨e', hmem, rfl, hce'⟩

/-- The seed contains exactly the names of enum declarations whose derive
list contains "Copy". -/
theorem mem_collectCopyEnums (decls : List IRDeclaration) (n : String) :
    n ∈ collectCopyEnums decls ↔
      ∃ e : IREnum, .enumD e ∈ decls ∧ e.name = n ∧ "Copy" ∈ e.derives := by
  unfold collectCopyEnums
  rw [mem_collectCopyEnums_aux]
  simp

/-- A pass only grows the copy-type set. -/
theorem runPass_set_mono (ds : List IRDeclaration) (c : List String) :
    c ⊆ (runPass c ds).1 := by
  induction ds generalizing c with
  | nil => simp [runPass]
  | cons d rest ih =>
    cases d with
    | structD s =>
      simp only [runPass]
      split
      · exact ih c
      · split
        · exact fun x hx => ih (setAdd c s.name) (by rw [mem_setAdd]; exact Or.inl hx)
        · exact ih c
    | enumD e => exact ih c
    | typeAliasD t => exact ih c
    | functionD f => exact ih c
    | implD i => exact ih c

/-- The fixpoint loop only grows the copy-type set. -/
theorem derivesLoop_set_mono (fuel : Nat) (c : List String) (ds : List IRDeclaration) :
    c ⊆ (derivesLoop fuel c ds).1 := by
  induction fuel generalizing c ds with
  | zero => simp [derivesLoop]
  | succ n ih =>
    simp only [derivesLoop]
    split
    · exact fun x hx => ih _ _ ((runPass_set_mono ds c) hx)
    · exact runPass_set_mono ds c

/-- The seed survives into the final copy-type set. -/
theorem seed_subset_optimizeDerivesSet (decls : List IRDeclaration) :
    collectCopyEnums decls ⊆ optimizeDerivesSet decls :=
  derivesLoop_set_mono 10 (collectCopyEnums decls) decls

/-! ## Claim C1 — enum seeding of the derive-closure -/

/-- Counterexample to C1: `unitEnumNoCopy` is a tagged-enum all of whose
variants carry no associated data, yet it is in neither the seed nor the
final duplicable-type set of the derive-closure, because the seed tests
`derives.includes('Copy')`, not the variant shapes. -/
theorem C1_counterexample :
    (unitEnumNoCopy.variants.all
      (fun v => match v with | .unit _ _ => true | _ => false)) = true ∧
    collectCopyEnums [.enumD unitEnumNoCopy] = [] ∧
    optimizeDerivesSet [.enumD unitEnumNoCopy] = [] ∧
    "E" ∉ optimizeDerivesSet [.enumD unitEnumNoCopy] := by
  refine ⟨by decide, by decide, by decide, by decide⟩

/-- C1, amended: the seed of the derive-closure contains exactly the
tagged-enums whose derive list already contains "Copy" (rather than the
enums whose variants carry no data), and every such enum is in the
duplicable-type set from the seed on — before any aggregate is examined —
and stays in the final set. -/
theorem C1_amended (decls : List IRDeclaration) :
    (∀ e : IREnum, .enumD e ∈ decls → "Copy" ∈ e.derives →
      e.name ∈ collectCopyEnums decls ∧ e.name ∈ optimizeDerivesSet decls) ∧
    (∀ n ∈ collectCopyEnums decls,
      ∃ e : IREnum, .enumD e ∈ decls ∧ e.name = n ∧ "Copy" ∈ e.derives) := by
  constructor
  · intro e he hc
    have hseed : e.name ∈ collectCopyEnums decls :=
      (mem_collectCopyEnums decls e.name).mpr ⟨e, he, rfl, hc⟩
    exact ⟨hseed, seed_subset_optimizeDerivesSet decls hseed⟩
  · intro n hn
    exact (mem_collectCopyEnums decls n).mp hn

theorem C1_amended_witness :
    (IRDeclaration.enumD parserStyleEnum ∈ [IRDeclaration.enumD parserStyleEnum]) ∧
    "Copy" ∈ parserStyleEnum.derives ∧
    "Color" ∈ collectCopyEnums [.enumD parserStyleEnum] ∧
    "Color" ∈ optimizeDerivesSet [.enumD parserStyleEnum] := by
  have h := (C1_amended [.enumD parserStyleEnum]).1 parserStyleEnum
    (List.mem_singleton.mpr rfl) (by decide)
  exact ⟨List.mem_singleton.mpr rfl, by decide, h.1, h.2⟩

/-! ## Claim C2 — mutable references in the per-field duplicability test -/

/-- C2 names a real defect: `isFieldTypeCopy` (the per-field test local to
the derive-closure) returns `true` for EVERY reference type, mutable or
not — unlike the repository's own `isCopyType`, which correctly answers
`false` for mutable references.  Consequently the fixpoint happily tags an
aggregate whose only field is a mutable reference, contradicting the claim
(and emitting a Rust `#[derive(Copy)]` struct with a `&mut` field, which
does not compile). -/
theorem C2_code_bug :
    isFieldTypeCopy [] (.reference (.primitive "i32") true) = true ∧
    isCopyType (.reference (.primitive "i32") true) [] = false ∧
    optimizeDerivesSet [.structD mutRefStruct] = ["S"] ∧
    (optimizeDerives [.structD mutRefStruct]).map declDerives? =
      [some ["Debug", "Clone", "Copy"]] ∧
    (optimizeDerives [.structD mutRefStruct]).map structName? = [some "S"] := by
  refine ⟨by decide, by decide, by decide, by decide, by decide⟩

/-! ## Claim C9 — the `__anonymous__` placeholder reaches emission -/

/-- C9 names a real defect: `generateStructLiteral` performs no check on the
aggregate literal's target name; a literal whose name is still the
unresolved placeholder `__anonymous__` is emitted verbatim into the target
source (there is no failure path at all), instead of being treated as a
fatal translation defect. -/
theorem C9_code_bug :
    generateExpression (.structLiteral "__anonymous__"
        [.mk "x" (.literal (.numInt 1) (.primitive "f64") (some true))]) =
      "__anonymous__ \x7b x: 1 \x7d" ∧
    generateExpression (.structLiteral "__anonymous__" []) = "__anonymous__ \x7b  \x7d" := by
  exact ⟨by decide, by decide⟩

/-! ## Helper lemmas: the ownership analyzer -/

/-- Characterization of the `needsClone` component of the classification
fold. -/
theorem mem_classify_fst (vars : List (String × VariableUsage))
    (a b : List String) (x : String) :
    x ∈ (vars.foldl classifyStep (a, b)).1 ↔
      x ∈ a ∨ ∃ p ∈ vars, p.1 = x ∧ needsClone p.2.ty [] = true ∧ 1 < p.2.reads := by
  induction vars generalizing a b with
  | nil => simp
  | cons p rest ih =>
    simp only [List.foldl_cons]
    have hstep : classifyStep (a, b) p =
        ((if needsClone p.2.ty [] then
            (if 1 < p.2.reads then setAdd a p.1 else a) else a),
         (if p.2.reads = 1 ∧ p.2.writes = 1 then setAdd b p.1 else b)) := rfl
    rw [hstep, ih]
    by_cases h1 : needsClone p.2.ty []
    · by_cases h2 : 1 < p.2.reads
      · simp only [h1, h2, if_true, mem_setAdd]
        constructor
        · rintro ((hx | rfl) | ⟨q, hq, rfl, hq1, hq2⟩)
          · exact Or.inl hx
          · exact Or.inr ⟨p, by simp, rfl, h1, h2⟩
          · exact Or.inr ⟨q, by simp [hq], rfl, hq1, hq2⟩
        · rintro (hx | ⟨q, hq, rfl, hq1, hq2⟩)
          · exact Or.inl (Or.inl hx)
          · rcases List.mem_cons.mp hq with rfl | hmem
            · exact Or.inl (Or.inr rfl)
            · exact Or.inr ⟨q, hmem, rfl, hq1, hq2⟩
      · simp only [h1, h2, if_true, if_false]
        constructor
        · rintro (hx | ⟨q, hq, rfl, hq1, hq2⟩)
          · exact Or.inl hx
          · exact Or.inr ⟨q, by simp [hq], rfl, hq1, hq2⟩
        · rintro (hx | ⟨q, hq, rfl, hq1, hq2⟩)
          · exact Or.inl hx
          · rcases List.mem_cons.mp hq with rfl | hmem
            · exact absurd hq2 h2
            · exact Or.inr ⟨q, hmem, rfl, hq1, hq2⟩
    · simp only [h1, if_false]
      constructor
      · rintro (hx | ⟨q, hq, rfl, hq1, hq2⟩)
        · exact Or.inl hx
        · exact Or.inr ⟨q, by simp [hq], rfl, hq1, hq2⟩
      · rintro (hx | ⟨q, hq, rfl, hq1, hq2⟩)
        · exact Or.inl hx
        · rcases List.mem_cons.mp hq with rfl | hmem
          · exact absurd hq1 (by simpa using h1)
          · exact Or.inr ⟨q, hmem, rfl, hq1, hq2⟩

/-- Unfolding lemmas for the map primitives. -/
theorem varsGet_cons (k' : String) (v' : VariableUsage) (rest : Vars) (x : String) :
    varsGet ((k', v') :: rest) x = if k' = x then some v' else varsGet rest x := rfl

theorem varsSet_cons (k' : String) (v' : VariableUsage) (rest : Vars)
    (k : String) (v : VariableUsage) :
    varsSet ((k', v') :: rest) k v =
      if k' = k then (k, v) :: rest else (k', v') :: varsSet rest k v := rfl

theorem varsBump_cons (k' : String) (u : VariableUsage) (rest : Vars)
    (k : String) (w : Bool) :
    varsBump ((k', u) :: rest) k w =
      if k' = k then
        (k', if w then { u with writes := u.writes + 1 }
             else { u with reads := u.reads + 1 }) :: rest
      else (k', u) :: varsBump rest k w := rfl

/-- Characterization of the `canBorrow` component of the classification
fold. -/
theorem mem_classify_snd (vars : List (String × VariableUsage))
    (a b : List String) (x : String) :
    x ∈ (vars.foldl classifyStep (a, b)).2 ↔
      x ∈ b ∨ ∃ p ∈ vars, p.1 = x ∧ p.2.reads = 1 ∧ p.2.writes = 1 := by
  induction vars generalizing a b with
  | nil => simp
  | cons p rest ih =>
    simp only [List.foldl_cons]
    have hstep : classifyStep (a, b) p =
        ((if needsClone p.2.ty [] then
            (if 1 < p.2.reads then setAdd a p.1 else a) else a),
         (if p.2.reads = 1 ∧ p.2.writes = 1 then setAdd b p.1 else b)) := rfl
    rw [hstep, ih]
    by_cases h1 : p.2.reads = 1 ∧ p.2.writes = 1
    · rw [if_pos h1]
      rw [mem_setAdd]
      constructor
      · rintro ((hx | rfl) | ⟨q, hq, rfl, hq1, hq2⟩)
        · exact Or.inl hx
        · exact Or.inr ⟨p, by simp, rfl, h1.1, h1.2⟩
        · exact Or.inr ⟨q, by simp [hq], rfl, hq1, hq2⟩
      · rintro (hx | ⟨q, hq, rfl, hq1, hq2⟩)
        · exact Or.inl (Or.inl hx)
        · rcases List.mem_cons.mp hq with rfl | hmem
          · exact Or.inl (Or.inr rfl)
          · exact Or.inr ⟨q, hmem, rfl, hq1, hq2⟩
    · rw [if_neg h1]
      constructor
      · rintro (hx | ⟨q, hq, rfl, hq1, hq2⟩)
        · exact Or.inl hx
        · exact Or.inr ⟨q, by simp [hq], rfl, hq1, hq2⟩
      · rintro (hx | ⟨q, hq, rfl, hq1, hq2⟩)
        · exact Or.inl hx
        · rcases List.mem_cons.mp hq with rfl | hmem
          · exact absurd ⟨hq1, hq2⟩ h1
          · exact Or.inr ⟨q, hmem, rfl, hq1, hq2⟩

/-- A successful `Map.get` result is an entry of the map. -/
theorem varsGet_mem {l : Vars} {x : String} {u : VariableUsage}
    (h : varsGet l x = some u) : (x, u) ∈ l := by
  induction l with
  | nil => simp [varsGet] at h
  | cons p rest ih =>
    obtain ⟨k', v'⟩ := p
    rw [varsGet_cons] at h
    by_cases hk : k' = x
    · rw [if_pos hk] at h
      cases h
      subst hk
      simp
    · rw [if_neg hk] at h
      exact List.mem_cons_of_mem _ (ih h)

theorem varsKeys_varsBump (l : Vars) (k : String) (w : Bool) :
    varsKeys (varsBump l k w) = varsKeys l := by
  induction l with
  | nil => rfl
  | cons p rest ih =>
    obtain ⟨k', u⟩ := p
    rw [varsBump_cons]
    by_cases hk : k' = k
    · rw [if_pos hk]
      simp [varsKeys]
    · rw [if_neg hk]
      simpa [varsKeys] using ih

theorem mem_varsKeys_varsSet (l : Vars) (k : String) (v : VariableUsage)
    (x : String) : x ∈ varsKeys (varsSet l k v) ↔ x ∈ varsKeys l ∨ x = k := by
  induction l with
  | nil => simp [varsSet, varsKeys]
  | cons p rest ih =>
    obtain ⟨k', v'⟩ := p
    rw [varsSet_cons]
    by_cases hk : k' = k
    · rw [if_pos hk]
      subst hk
      simp only [varsKeys, List.map_cons, List.mem_cons]
      tauto
    · rw [if_neg hk]
      simp only [varsKeys, List.map_cons, List.mem_cons] at ih ⊢
      rw [ih]
      tauto

theorem nodupKeys_varsSet (l : Vars) (k : String) (v : VariableUsage)
    (h : (varsKeys l).Nodup) : (varsKeys (varsSet l k v)).Nodup := by
  induction l with
  | nil => simp [varsSet, varsKeys]
  | cons p rest ih =>
    obtain ⟨k', v'⟩ := p
    simp only [varsKeys, List.map_cons, List.nodup_cons] at h
    rw [varsSet_cons]
    by_cases hk : k' = k
    · rw [if_pos hk]
      subst hk
      simp only [varsKeys, List.map_cons, List.nodup_cons]
      exact ⟨by simpa [varsKeys] using h.1, h.2⟩
    · rw [if_neg hk]
      simp only [varsKeys, List.map_cons, List.nodup_cons]
      refine ⟨?_, by simpa [varsKeys] using ih h.2⟩
      intro hx
      rcases (mem_varsKeys_varsSet rest k v k').mp (by simpa [varsKeys] using hx) with hc | hc
      · exact h.1 (by simpa [varsKeys] using hc)
      · exact hk hc

mutual

theorem collectFromStatement_nodup (stmt : IRStatement) :
    ∀ vars : Vars, (varsKeys vars).Nodup →
      (varsKeys (collectFromStatement stmt vars)).Nodup := by
  intro vars h
  match stmt with
  | .varDecl name ty m init =>
    exact collectFromExpression_nodup init false _ (nodupKeys_varsSet _ _ _ h)
  | .assign target value =>
    exact collectFromExpression_nodup value false _
      (collectFromExpression_nodup target true _ h)
  | .ret value =>
    match value with
    | some v => exact collectFromExpression_nodup v false _ h
    | none => exact h
  | .ifS c t e =>
    match e with
    | some es =>
      exact collectVariables_nodup es _
        (collectVariables_nodup t _ (collectFromExpression_nodup c false _ h))
    | none =>
      exact collectVariables_nodup t _ (collectFromExpression_nodup c false _ h)
  | .whileS c b _ =>
    exact collectVariables_nodup b _ (collectFromExpression_nodup c false _ h)
  | .forIn _ _ it b _ =>
    exact collectVariables_nodup b _ (collectFromExpression_nodup it false _ h)
  | .switchS d cs =>
    exact collectFromCases_nodup cs _ (collectFromExpression_nodup d false _ h)
  | .matchS e arms =>
    exact collectFromArms_nodup arms _ (collectFromExpression_nodup e false _ h)
  | .exprStmt e => exact collectFromExpression_nodup e false _ h
  | .blockS ss => exact collectVariables_nodup ss _ h
  | .breakS _ => exact h
  | .continueS _ => exact h

theorem collectVariables_nodup (statements : List IRStatement) :
    ∀ vars : Vars, (varsKeys vars).Nodup →
      (varsKeys (collectVariables statements vars)).Nodup := by
  intro vars h
  match statements with
  | [] => exact h
  | s :: rest =>
    exact collectVariables_nodup rest _ (collectFromStatement_nodup s _ h)

theorem collectFromCases_nodup (cases : List SwitchCase) :
    ∀ vars : Vars, (varsKeys vars).Nodup →
      (varsKeys (collectFromCases cases vars)).Nodup := by
  intro vars h
  match cases with
  | [] => exact h
  | .mk value body _ :: rest =>
    match value with
    | some v =>
      exact collectFromCases_nodup rest _
        (collectVariables_nodup body _ (collectFromExpression_nodup v false _ h))
    | none =>
      exact collectFromCases_nodup rest _ (collectVariables_nodup body _ h)

theorem collectFromArms_nodup (arms : List MatchArm) :
    ∀ vars : Vars, (varsKeys vars).Nodup →
      (varsKeys (collectFromArms arms vars)).Nodup := by
  intro vars h
  match arms with
  | [] => exact h
  | .mk _ guard body :: rest =>
    match guard with
    | some g =>
      exact collectFromArms_nodup rest _
        (collectVariables_nodup body _ (collectFromExpression_nodup g false _ h))
    | none =>
      exact collectFromArms_nodup rest _ (collectVariables_nodup body _ h)

theorem collectFromExpression_nodup (expr : IRExpression) (isWrite : Bool) :
    ∀ vars : Vars, (varsKeys vars).Nodup →
      (varsKeys (collectFromExpression expr isWrite vars)).Nodup := by
  intro vars h
  match expr with
  | .identifier name _ =>
    show (varsKeys (varsBump vars name isWrite)).Nodup
    rw [varsKeys_varsBump]
    exact h
  | .binary _ l r =>
    exact collectFromExpression_nodup r false _ (collectFromExpression_nodup l false _ h)
  | .unary _ e => exact collectFromExpression_nodup e false _ h
  | .call _ args => exact collectFromExprList_nodup args _ h
  | .methodCall obj _ args _ _ =>
    exact collectFromExprList_nodup args _ (collectFromExpression_nodup obj false _ h)
  | .index obj idx =>
    exact collectFromExpression_nodup idx false _ (collectFromExpression_nodup obj false _ h)
  | .property obj _ _ _ => exact collectFromExpression_nodup obj false _ h
  | .arrayLiteral es _ => exact collectFromExprList_nodup es _ h
  | .structLiteral _ fs => exact collectFromFieldInits_nodup fs _ h
  | .tupleLiteral es => exact collectFromExprList_nodup es _ h
  | .ternary c t e =>
    exact collectFromExpression_nodup e false _
      (collectFromExpression_nodup t false _ (collectFromExpression_nodup c false _ h))
  | .cast e _ => exact collectFromExpression_nodup e false _ h
  | .literal _ _ _ => exact h
  | .enumVariant _ _ _ => exact h
  | .closure _ _ _ => exact h

theorem collectFromExprList_nodup (exprs : List IRExpression) :
    ∀ vars : Vars, (varsKeys vars).Nodup →
      (varsKeys (collectFromExprList exprs vars)).Nodup := by
  intro vars h
  match exprs with
  | [] => exact h
  | e :: rest =>
    exact collectFromExprList_nodup rest _ (collectFromExpression_nodup e false _ h)

theorem collectFromFieldInits_nodup (fields : List StructFieldInit) :
    ∀ vars : Vars, (varsKeys vars).Nodup →
      (varsKeys (collectFromFieldInits fields vars)).Nodup := by
  intro vars h
  match fields with
  | [] => exact h
  | .mk _ value :: rest =>
    exact collectFromFieldInits_nodup rest _ (collectFromExpression_nodup value false _ h)

end

/-- The `variables` map built by `analyzeFunction` has duplicate-free keys
(it is a faithful image of a TypeScript `Map`). -/
theorem analyzeFunction_nodupKeys (func : IRFunction) :
    (varsKeys (analyzeFunction func).varsMap).Nodup :=
  collectVariables_nodup func.body [] (by simp [varsKeys])

/-- With duplicate-free keys, an entry is determined by its key. -/
theorem mem_unique_of_nodupKeys {l : Vars} {x : String} {u v : VariableUsage}
    (h : (varsKeys l).Nodup) (hu : (x, u) ∈ l) (hv : (x, v) ∈ l) : u = v := by
  induction l with
  | nil => simp at hu
  | cons p rest ih =>
    simp only [varsKeys, List.map_cons, List.nodup_cons] at h
    rcases List.mem_cons.mp hu with rfl | hu'
    · rcases List.mem_cons.mp hv with heq | hv'
      · exact congrArg Prod.snd heq.symm
      · exact absurd (by simpa [varsKeys] using List.mem_map_of_mem Prod.fst hv') h.1
    · rcases List.mem_cons.mp hv with rfl | hv'
      · exact absurd (by simpa [varsKeys] using List.mem_map_of_mem Prod.fst hu') h.1
      · exact ih h.2 hu' hv'

/-- Unfolding of the three `analyzeFunction` projections. -/
theorem analyzeFunction_proj (func : IRFunction) :
    (analyzeFunction func).varsMap = collectVariables func.body [] ∧
    (analyzeFunction func).needsClone =
      ((collectVariables func.body []).foldl classifyStep ([], [])).1 ∧
    (analyzeFunction func).canBorrow =
      ((collectVariables func.body []).foldl classifyStep ([], [])).2 :=
  ⟨rfl, rfl, rfl⟩

/-! ## Claim C5 — the analyzer and the duplicable-type set -/

/-- Counterexample to C5: in a program whose derive-closure set contains the
tagged-enum `Color`, a variable `x` of type `Color` read twice is
nevertheless added to `needsDuplication` — `analyzeFunction` invokes
`needsClone(usage.type)` with the default empty known-Copy set, and the
derive-closure's set is never passed to the ownership analyzer. -/
theorem C5_counterexample :
    "Color" ∈ optimizeDerivesSet [.enumD parserStyleEnum, .functionD readTwiceFn] ∧
    ((varsGet (analyzeFunction readTwiceFn).varsMap "x").map
      (fun u => (isEnumOrStructType u.ty, u.reads))) = some (true, 2) ∧
    "x" ∈ (analyzeFunction readTwiceFn).needsClone := by
  refine ⟨by decide, by decide, by decide⟩

/-- C5, amended: the ownership analyzer always treats tagged-enum- and
aggregate-typed variables as non-duplicable (it calls the duplicability
test with an empty known-duplicable set, never with the derive-closure's
set); such a variable read more than once is always added to
`needsDuplication`. -/
theorem C5_amended (func : IRFunction) (x : String) (u : VariableUsage)
    (hget : varsGet (analyzeFunction func).varsMap x = some u)
    (hty : isEnumOrStructType u.ty = true)
    (hreads : 1 < u.reads) :
    x ∈ (analyzeFunction func).needsClone := by
  have hmem : (x, u) ∈ (analyzeFunction func).varsMap := varsGet_mem hget
  rw [(analyzeFunction_proj func).1] at hmem
  have hnc : needsClone u.ty [] = true := by
    cases hty2 : u.ty <;> simp_all [isEnumOrStructType, needsClone, isCopyType]
  rw [(analyzeFunction_proj func).2.1]
  exact (mem_classify_fst _ [] [] x).mpr (Or.inr ⟨(x, u), hmem, rfl, hnc, hreads⟩)

theorem C5_amended_witness :
    varsGet (analyzeFunction readTwiceFn).varsMap "x" = some readTwiceUsage ∧
    isEnumOrStructType readTwiceUsage.ty = true ∧
    1 < readTwiceUsage.reads ∧
    "x" ∈ (analyzeFunction readTwiceFn).needsClone :=
  ⟨rfl, by decide, by decide, C5_amended readTwiceFn "x" readTwiceUsage rfl (by decide) (by decide)⟩

/-! ## Claim C6 — duplication classification invariants -/

/-- C6: a variable of non-duplicable type read twice and written once is in
`needsDuplication`; a variable written once and read exactly once is in
`canBorrow`; and no variable is in both sets (membership in the first
requires more than one read, in the second exactly one, of the same usage
record of the duplicate-free `variables` map). -/
theorem C6_classification (func : IRFunction) (x : String) :
    (∀ u : VariableUsage, varsGet (analyzeFunction func).varsMap x = some u →
      needsClone u.ty [] = true → u.reads = 2 → u.writes = 1 →
      x ∈ (analyzeFunction func).needsClone) ∧
    (∀ u : VariableUsage, varsGet (analyzeFunction func).varsMap x = some u →
      u.reads = 1 → u.writes = 1 → x ∈ (analyzeFunction func).canBorrow) ∧
    ¬(x ∈ (analyzeFunction func).needsClone ∧ x ∈ (analyzeFunction func).canBorrow) := by
  refine ⟨?_, ?_, ?_⟩
  · intro u hget hnc hr hw
    have hmem : (x, u) ∈ (analyzeFunction func).varsMap := varsGet_mem hget
    rw [(analyzeFunction_proj func).1] at hmem
    rw [(analyzeFunction_proj func).2.1]
    exact (mem_classify_fst _ [] [] x).mpr
      (Or.inr ⟨(x, u), hmem, rfl, hnc, by show 1 < u.reads; omega⟩)
  · intro u hget hr hw
    have hmem : (x, u) ∈ (analyzeFunction func).varsMap := varsGet_mem hget
    rw [(analyzeFunction_proj func).1] at hmem
    rw [(analyzeFunction_proj func).2.2]
    exact (mem_classify_snd _ [] [] x).mpr (Or.inr ⟨(x, u), hmem, rfl, hr, hw⟩)
  · rintro ⟨hnc, hcb⟩
    rw [(analyzeFunction_proj func).2.1] at hnc
    rw [(analyzeFunction_proj func).2.2] at hcb
    rcases (mem_classify_fst _ [] [] x).mp hnc with h | ⟨p, hp, hpx, _, hpr⟩
    · simp at h
    rcases (mem_classify_snd _ [] [] x).mp hcb with h | ⟨q, hq, hqx, hqr, _⟩
    · simp at h
    have hnodup := analyzeFunction_nodupKeys func
    rw [(analyzeFunction_proj func).1] at hnodup
    obtain ⟨p1, p2⟩ := p
    obtain ⟨q1, q2⟩ := q
    cases hpx
    cases hqx
    have : p2 = q2 := mem_unique_of_nodupKeys hnodup hp hq
    subst this
    omega

theorem C6_classification_witness :
    varsGet (analyzeFunction c6Fn).varsMap "a" = some c6UsageA ∧
    needsClone c6UsageA.ty [] = true ∧ c6UsageA.reads = 2 ∧ c6UsageA.writes = 1 ∧
    "a" ∈ (analyzeFunction c6Fn).needsClone ∧
    varsGet (analyzeFunction c6Fn).varsMap "b" = some c6UsageB ∧
    c6UsageB.reads = 1 ∧ c6UsageB.writes = 1 ∧
    "b" ∈ (analyzeFunction c6Fn).canBorrow ∧
    ¬("a" ∈ (analyzeFunction c6Fn).needsClone ∧ "a" ∈ (analyzeFunction c6Fn).canBorrow) :=
  ⟨rfl, by decide, by decide, by decide,
   (C6_classification c6Fn "a").1 c6UsageA rfl (by decide) (by decide) (by decide),
   rfl, by decide, by decide,
   (C6_classification c6Fn "b").2.1 c6UsageB rfl (by decide) (by decide),
   (C6_classification c6Fn "a").2.2⟩

/-! ## Claim C7 — dispatch precedence for sequence-typed receivers -/

/-- None of the names in `stringOnlyMethods` has an entry in the sequence
(array) table. -/
theorem stringOnly_not_in_arrayTable :
    ∀ m ∈ stringOnlyMethods, getArrayMethod m = none := by
  intro m hm
  simp only [stringOnlyMethods, List.mem_cons, List.not_mem_nil, or_false] at hm
  rcases hm with rfl | rfl | rfl | rfl | rfl | rfl | rfl | rfl | rfl | rfl | rfl | rfl
    | rfl | rfl | rfl | rfl <;> rfl

/-- C7: for a method call with no namespace whose receiver's resolved type
is statically known to be the sequence (array) type, and whose method name
has a handler in BOTH the sequence table and the text table, code
generation selects the sequence table's handler (never the text table's):
name resolution returns exactly the array-table entry, and
`generateMethodCall` emits with that handler.  (The source's
`expr.objectType` branch is empty, so even a statically known sequence
type dispatches through `resolveMethodByName`, whose ambiguous-name rule
tries the sequence table first.) -/
theorem C7_dispatch_precedence (object : IRExpression) (method : String)
    (args : List IRExpression) (elemTy : IRType)
    (hA : (getArrayMethod method).isSome = true)
    (hS : (getStringMethod method).isSome = true) :
    resolveMethodByName method = getArrayMethod method ∧
    ∃ h : BuiltinMethodHandler,
      getArrayMethod method = some h ∧
      generateMethodCall object method args none (some (.array elemTy)) =
        h.generateRust (some (generateExpression object)) (generateExprList args) args := by
  obtain ⟨h, hh⟩ := Option.isSome_iff_exists.mp hA
  have hres : resolveMethodByName method = getArrayMethod method := by
    unfold resolveMethodByName
    by_cases hso : stringOnlyMethods.contains method
    · exfalso
      have : getArrayMethod method = none :=
        stringOnly_not_in_arrayTable method (by simpa using hso)
      rw [this] at hA
      simp at hA
    · rw [if_neg (by simpa using hso)]
      by_cases hao : arrayOnlyMethods.contains method
      · rw [if_pos (by simpa using hao)]
      · rw [if_neg (by simpa using hao), hh]
  refine ⟨hres, h, hh, ?_⟩
  show (match (none : Option String) with
    | some ns =>
      match getBuiltinMethod ns method with
      | some handler => handler.generateRust none (generateExprList args) args
      | none => "/* " ++ ns ++ "." ++ method ++ " not supported */"
    | none =>
      match resolveMethodByName method with
      | some handler =>
        handler.generateRust (some (generateExpression object)) (generateExprList args) args
      | none =>
        generateExpression object ++ "." ++ toSnakeCase method ++ "("
          ++ String.intercalate ", " (generateExprList args) ++ ")") = _
  rw [hres, hh]

theorem C7_dispatch_precedence_witness :
    (getArrayMethod "slice").isSome = true ∧
    (getStringMethod "slice").isSome = true ∧
    resolveMethodByName "slice" = getArrayMethod "slice" ∧
    ∃ h : BuiltinMethodHandler,
      getArrayMethod "slice" = some h ∧
      generateMethodCall (.identifier "xs" none) "slice" [] none
          (some (.array (.primitive "f64"))) =
        h.generateRust (some (generateExpression (.identifier "xs" none)))
          (generateExprList []) [] := by
  have h := C7_dispatch_precedence (.identifier "xs" none) "slice" []
    (.primitive "f64") (by rfl) (by rfl)
  exact ⟨by rfl, by rfl, h.1, h.2⟩

/-! ## Claim C8 — tail-position elision -/

/-- Splitting a statement sequence at its final statement: the final
statement is generated with the given tail flag, everything before it with
the flag forced off. -/
theorem generateStmtSeq_append_last (bs : List IRStatement) (s : IRStatement)
    (lvl : Nat) (flag : Bool) (rt : Option IRType) :
    ∃ pre, generateStmtSeq (bs ++ [s]) lvl flag rt =
      pre ++ generateStatement s lvl flag rt := by
  induction bs with
  | nil => exact ⟨[], rfl⟩
  | cons b bs ih =>
    rcases bs with _ | ⟨b2, bs2⟩
    · exact ⟨generateStatement b lvl false rt, rfl⟩
    · obtain ⟨pre, hpre⟩ := ih
      refine ⟨generateStatement b lvl false rt ++ pre, ?_⟩
      have hstep : generateStmtSeq (b :: b2 :: (bs2 ++ [s])) lvl flag rt
          = generateStatement b lvl false rt
            ++ generateStmtSeq (b2 :: (bs2 ++ [s])) lvl flag rt := rfl
      rw [List.cons_append, List.cons_append, hstep]
      rw [List.cons_append] at hpre
      rw [hpre, List.append_assoc]

/-- Counterexample to C8: in the non-void function `fn g() -> i32` whose
final statement is the expression-statement `v.push(x)`, the final
statement is emitted WITH a trailing terminator (`push`'s registry handler
is statement-only), not in the bare tail-elided form the claim requires
for every final expression-statement. -/
theorem C8_counterexample :
    generateFunctionLines pushTailFn =
      ["fn g() -> i32 \x7b", "    v.push(x);", "\x7d"] ∧
    generateStatement (.exprStmt pushCallExpr) 1 true (some (.primitive "i32")) =
      ["    v.push(x);"] ∧
    generateStatement (.exprStmt pushCallExpr) 1 true (some (.primitive "i32")) ≠
      [indent 1 ++ generateExpression pushCallExpr] := by
  refine ⟨by decide, by decide, by decide⟩

/-- C8, amended: in a non-void function, a final `return e;` is emitted as
the bare coerced value (no `return` keyword, no terminator) and a final
expression-statement is emitted without a terminator UNLESS it is a
builtin method call whose registry handler is statement-only (those always
get a terminator); the same statements in non-final position are emitted
with the `return` keyword / terminator. -/
theorem C8_amended :
    (∀ (func : IRFunction) (bs : List IRStatement) (e : IRExpression),
      func.body = bs ++ [.ret (some e)] → isVoidType func.returnType = false →
      ∃ pre, generateFunctionLines func =
        pre ++ [indent 1 ++ generateExpressionWithType e (some func.returnType),
                "\x7d"]) ∧
    (∀ (func : IRFunction) (bs : List IRStatement) (e : IRExpression),
      func.body = bs ++ [.exprStmt e] → isVoidType func.returnType = false →
      isStatementOnlyCall e = false →
      ∃ pre, generateFunctionLines func =
        pre ++ [indent 1 ++ generateExpression e, "\x7d"]) ∧
    (∀ (e : IRExpression) (rt : Option IRType),
      generateStatement (.ret (some e)) 1 false rt =
        [indent 1 ++ "return " ++ generateExpressionWithType e rt ++ ";"]) ∧
    (∀ (e : IRExpression) (rt : Option IRType), isStatementOnlyCall e = false →
      generateStatement (.exprStmt e) 1 false rt =
        [indent 1 ++ generateExpression e ++ ";"]) := by
  refine ⟨?_, ?_, ?_, ?_⟩
  · intro func bs e hbody hvoid
    obtain ⟨pre0, hpre0⟩ :=
      generateStmtSeq_append_last bs (.ret (some e)) 1 true (some func.returnType)
    refine ⟨functionSignature func :: pre0, ?_⟩
    have h1 : generateFunctionLines func
        = functionSignature func
          :: generateStmtSeq func.body 1 (!isVoidType func.returnType)
              (some func.returnType)
          ++ ["\x7d"] := rfl
    rw [h1, hbody, hvoid]
    simp only [Bool.not_false]
    rw [hpre0]
    have h2 : generateStatement (.ret (some e)) 1 true (some func.returnType)
        = [indent 1 ++ generateExpressionWithType e (some func.returnType)] := rfl
    rw [h2]
    simp
  · intro func bs e hbody hvoid hso
    obtain ⟨pre0, hpre0⟩ :=
      generateStmtSeq_append_last bs (.exprStmt e) 1 true (some func.returnType)
    refine ⟨functionSignature func :: pre0, ?_⟩
    have h1 : generateFunctionLines func
        = functionSignature func
          :: generateStmtSeq func.body 1 (!isVoidType func.returnType)
              (some func.returnType)
          ++ ["\x7d"] := rfl
    rw [h1, hbody, hvoid]
    simp only [Bool.not_false]
    rw [hpre0]
    have h2 : generateStatement (.exprStmt e) 1 true (some func.returnType)
        = [indent 1 ++ generateExpression e] := by
      show generateExpressionStmt e (indent 1) true = _
      unfold generateExpressionStmt
      rw [hso]
      simp
    rw [h2]
    simp
  · intro e rt
    rfl
  · intro e rt hso
    show generateExpressionStmt e (indent 1) false = _
    unfold generateExpressionStmt
    rw [hso]
    simp

theorem C8_amended_witness :
    c8RetFn.body = [.exprStmt (.identifier "y" none)]
      ++ [.ret (some (.binary "+" (.identifier "x" none)
            (.literal (.numInt 1) (.primitive "i32") (some true))))] ∧
    isVoidType c8RetFn.returnType = false ∧
    (∃ pre, generateFunctionLines c8RetFn =
      pre ++ [indent 1 ++ generateExpressionWithType
                (.binary "+" (.identifier "x" none)
                  (.literal (.numInt 1) (.primitive "i32") (some true)))
                (some c8RetFn.returnType), "\x7d"]) ∧
    c8ExprFn.body = [] ++ [.exprStmt (.identifier "x" none)] ∧
    isStatementOnlyCall (.identifier "x" none) = false ∧
    (∃ pre, generateFunctionLines c8ExprFn =
      pre ++ [indent 1 ++ generateExpression (.identifier "x" none), "\x7d"]) ∧
    generateStatement (.ret (some (.identifier "x" none))) 1 false
        (some (.primitive "i32")) =
      [indent 1 ++ "return " ++ generateExpressionWithType (.identifier "x" none)
        (some (.primitive "i32")) ++ ";"] ∧
    generateStatement (.exprStmt (.identifier "x" none)) 1 false
        (some (.primitive "i32")) =
      [indent 1 ++ generateExpression (.identifier "x" none) ++ ";"] :=
  ⟨rfl, by decide,
   C8_amended.1 c8RetFn [.exprStmt (.identifier "y" none)] _ rfl (by decide),
   rfl, by decide,
   C8_amended.2.1 c8ExprFn [] (.identifier "x" none) rfl (by decide) (by decide),
   C8_amended.2.2.1 (.identifier "x" none) (some (.primitive "i32")),
   C8_amended.2.2.2 (.identifier "x" none) (some (.primitive "i32")) (by decide)⟩

/-! ## Claim C10 — switch lowering and the wildcard arm -/

/-- Counterexample to C10: an input switch with two default cases lowers to
a match with TWO wildcard arms, not exactly one. -/
theorem C10_counterexample :
    countWildcardArmLines (generateStatement twoDefaultSwitch 0 false none)
      (indent 0) = 2 ∧
    countWildcardArmLines (generateStatement twoDefaultSwitch 0 false none)
      (indent 0) ≠ 1 := by
  refine ⟨by decide, by decide⟩

/-! String-splitting tools for the amended C10. -/

theorem str_cancel_left {a b c : String} (h : a ++ b = a ++ c) : b = c := by
  have hd := congrArg String.data h
  simp only [String.data_append] at hd
  exact String.ext (List.append_cancel_left hd)

theorem str_cancel_right {a b c : String} (h : a ++ c = b ++ c) : a = b := by
  have hd := congrArg String.data h
  simp only [String.data_append] at hd
  exact String.ext (List.append_cancel_right hd)

theorem str_head {a : String} (t : String) {c : Char}
    (h : a.data.head? = some c) : (a ++ t).data.head? = some c := by
  rw [String.data_append]
  rw [List.head?_append_of_ne_nil]
  · exact h
  · intro hnil
    rw [hnil] at h
    simp at h

theorem str_last {a : String} (t : String) {c : Char}
    (h : a.data.getLast? = some c) : (t ++ a).data.getLast? = some c := by
  rw [String.data_append]
  rw [List.getLast?_append_of_ne_nil]
  · exact h
  · intro hnil
    rw [hnil] at h
    simp at h

theorem indent_succ (n : Nat) : indent (n + 1) = indent n ++ "    " := by
  apply String.ext
  simp only [indent, String.data_append]
  rw [show 4 * (n + 1) = 4 * n + 4 by omega, List.replicate_add]
  congr 1

theorem indent_add_two (n : Nat) : indent (n + 2) = indent n ++ "        " := by
  rw [show n + 2 = (n + 1) + 1 by omega, indent_succ, indent_succ,
    String.append_assoc]
  congr 1

theorem wildcardPred_iff (ind l : String) :
    wildcardPred ind l = true ↔
      l = ind ++ "    _ => \x7b" ∨ l = ind ++ "    _ => \x7b\x7d" := by
  simp [wildcardPred]

theorem not_wildcard_header (ind gd : String) :
    wildcardPred ind (ind ++ "match " ++ gd ++ " \x7b") = false := by
  rw [← Bool.not_eq_true, wildcardPred_iff]
  rintro (h | h) <;>
  · rw [String.append_assoc, String.append_assoc] at h
    have h' := str_cancel_left h
    have h1 := str_head (a := "match ") (gd ++ " \x7b") (c := 'm') (by decide)
    rw [h'] at h1
    exact absurd h1 (by decide)

theorem not_wildcard_value_header (ind gv : String) (hne : gv ≠ "_") :
    wildcardPred ind (ind ++ "    " ++ gv ++ " => \x7b") = false := by
  rw [← Bool.not_eq_true, wildcardPred_iff]
  rintro (h | h)
  · rw [String.append_assoc, String.append_assoc] at h
    have h0 := str_cancel_left h
    rw [show ("    _ => \x7b" : String) = "    " ++ "_ => \x7b" from by decide] at h0
    have h' := str_cancel_left h0
    rw [show ("_ => \x7b" : String) = "_" ++ " => \x7b" from by decide] at h'
    exact hne (str_cancel_right h')
  · rw [String.append_assoc, String.append_assoc] at h
    have h0 := str_cancel_left h
    rw [show ("    _ => \x7b\x7d" : String)
        = "    " ++ "_ => \x7b\x7d" from by decide] at h0
    have h' := str_cancel_left h0
    have h1 := str_last (a := " => \x7b") gv (c := '\x7b') (by decide)
    rw [h'] at h1
    exact absurd h1 (by decide)

theorem not_wildcard_inner (ind suffix : String) :
    wildcardPred ind (ind ++ "        " ++ suffix) = false := by
  rw [← Bool.not_eq_true, wildcardPred_iff]
  rintro (h | h) <;>
  · rw [String.append_assoc] at h
    have h0 := str_cancel_left h
    rw [show ("        " : String) = "    " ++ "    " from by decide,
      String.append_assoc] at h0
    first
    | rw [show ("    _ => \x7b" : String)
          = "    " ++ "_ => \x7b" from by decide] at h0
    | rw [show ("    _ => \x7b\x7d" : String)
          = "    " ++ "_ => \x7b\x7d" from by decide] at h0
    have h' := str_cancel_left h0
    have h1 := str_head (a := "    ") suffix (c := ' ') (by decide)
    rw [h'] at h1
    exact absurd h1 (by decide)

theorem not_wildcard_closer (ind : String) :
    wildcardPred ind (ind ++ "    \x7d") = false := by
  rw [← Bool.not_eq_true, wildcardPred_iff]
  rintro (h | h) <;> exact absurd (str_cancel_left h) (by decide)

theorem not_wildcard_footer (ind : String) :
    wildcardPred ind (ind ++ "\x7d") = false := by
  rw [← Bool.not_eq_true, wildcardPred_iff]
  rintro (h | h) <;> exact absurd (str_cancel_left h) (by decide)

theorem wildcard_default_header (ind : String) :
    wildcardPred ind (ind ++ "    _ => \x7b") = true := by
  simp [wildcardPred]

theorem wildcard_catchall (ind : String) :
    wildcardPred ind (ind ++ "    _ => \x7b\x7d") = true := by
  simp [wildcardPred]

/-! Every line a statement generates is prefixed by its indentation. -/

theorem generateVariable_prefix (name : String) (ty : IRType) (m : Bool)
    (init : IRExpression) (ind : String) :
    ∀ l ∈ generateVariable name ty m init ind, ∃ s, l = ind ++ s := by
  intro l hl
  cases ty <;>
    (simp only [generateVariable] at hl
     rcases List.mem_singleton.mp hl with rfl
     first
     | exact ⟨_, rfl⟩
     | (simp only [String.append_assoc]; exact ⟨_, rfl⟩))

theorem generateReturn_prefix (value : Option IRExpression) (ind : String)
    (flag : Bool) (rt : Option IRType) :
    ∀ l ∈ generateReturn value ind flag rt, ∃ s, l = ind ++ s := by
  intro l hl
  cases value with
  | some v =>
    simp only [generateReturn] at hl
    split at hl <;>
      (rcases List.mem_singleton.mp hl with rfl
       first
       | exact ⟨_, rfl⟩
       | (simp only [String.append_assoc]; exact ⟨_, rfl⟩))
  | none =>
    simp only [generateReturn] at hl
    split at hl
    · rcases List.mem_singleton.mp hl with rfl
      exact ⟨_, rfl⟩
    · simp at hl

theorem generateExpressionStmt_prefix (e : IRExpression) (ind : String)
    (flag : Bool) :
    ∀ l ∈ generateExpressionStmt e ind flag, ∃ s, l = ind ++ s := by
  intro l hl
  simp only [generateExpressionStmt] at hl
  split at hl
  · rcases List.mem_singleton.mp hl with rfl
    first
    | exact ⟨_, rfl⟩
    | (simp only [String.append_assoc]; exact ⟨_, rfl⟩)
  · split at hl <;>
      (rcases List.mem_singleton.mp hl with rfl
       first
       | exact ⟨_, rfl⟩
       | (simp only [String.append_assoc]; exact ⟨_, rfl⟩))

mutual

theorem generateStatement_prefix (stmt : IRStatement) (lvl : Nat) (flag : Bool)
    (rt : Option IRType) :
    ∀ l ∈ generateStatement stmt lvl flag rt, ∃ s, l = indent lvl ++ s := by
  intro l hl
  match stmt with
  | .varDecl n ty m init => exact generateVariable_prefix n ty m init (indent lvl) l hl
  | .assign t v =>
    rcases List.mem_singleton.mp hl with rfl
    simp only [String.append_assoc]
    exact ⟨_, rfl⟩
  | .ret v => exact generateReturn_prefix v (indent lvl) flag rt l hl
  | .breakS lbl =>
    rcases List.mem_singleton.mp hl with rfl
    exact ⟨_, rfl⟩
  | .continueS lbl =>
    rcases List.mem_singleton.mp hl with rfl
    exact ⟨_, rfl⟩
  | .exprStmt e => exact generateExpressionStmt_prefix e (indent lvl) flag l hl
  | .blockS ss => exact generateStmtSeq_prefix ss lvl flag rt l hl
  | .ifS c tb eb =>
    cases eb with
    | some es =>
      simp only [generateStatement, List.mem_append, List.mem_singleton] at hl
      rcases hl with (((rfl | hA) | (rfl | hB)) | rfl)
      · simp only [String.append_assoc]
        exact ⟨_, rfl⟩
      · obtain ⟨s, rfl⟩ := generateStmtSeq_prefix tb (lvl + 1) _ rt _ hA
        rw [indent_succ, String.append_assoc]
        exact ⟨_, rfl⟩
      · exact ⟨_, rfl⟩
      · obtain ⟨s, rfl⟩ := generateStmtSeq_prefix es (lvl + 1) _ rt _ hB
        rw [indent_succ, String.append_assoc]
        exact ⟨_, rfl⟩
      · exact ⟨_, rfl⟩
    | none =>
      simp only [generateStatement, List.mem_append, List.mem_singleton,
        List.not_mem_nil, or_false] at hl
      rcases hl with ((rfl | hA) | rfl)
      · simp only [String.append_assoc]
        exact ⟨_, rfl⟩
      · obtain ⟨s, rfl⟩ := generateStmtSeq_prefix tb (lvl + 1) _ rt _ hA
        rw [indent_succ, String.append_assoc]
        exact ⟨_, rfl⟩
      · exact ⟨_, rfl⟩
  | .whileS c b lbl =>
    simp only [generateStatement, List.mem_append, List.mem_singleton] at hl
    rcases hl with (rfl | hA) | rfl
    · simp only [String.append_assoc]
      exact ⟨_, rfl⟩
    · obtain ⟨s, rfl⟩ := generateStmtSeq_prefix b (lvl + 1) _ rt _ hA
      rw [indent_succ, String.append_assoc]
      exact ⟨_, rfl⟩
    · exact ⟨_, rfl⟩
  | .forIn v m it b lbl =>
    simp only [generateStatement, List.mem_append, List.mem_singleton] at hl
    rcases hl with (rfl | hA) | rfl
    · simp only [String.append_assoc]
      exact ⟨_, rfl⟩
    · obtain ⟨s, rfl⟩ := generateStmtSeq_prefix b (lvl + 1) _ rt _ hA
      rw [indent_succ, String.append_assoc]
      exact ⟨_, rfl⟩
    · exact ⟨_, rfl⟩
  | .switchS d cs =>
    simp only [generateStatement, List.mem_append, List.mem_singleton] at hl
    rcases hl with ((rfl | hA) | hB) | rfl
    · simp only [String.append_assoc]
      exact ⟨_, rfl⟩
    · exact generateSwitchCases_prefix cs lvl rt l hA
    · split at hB
      · simp at hB
      · rcases List.mem_singleton.mp hB with rfl
        exact ⟨_, rfl⟩
    · exact ⟨_, rfl⟩
  | .matchS e arms =>
    simp only [generateStatement, List.mem_append, List.mem_singleton] at hl
    rcases hl with (rfl | hA) | rfl
    · simp only [String.append_assoc]
      exact ⟨_, rfl⟩
    · exact generateMatchArms_prefix arms lvl rt l hA
    · exact ⟨_, rfl⟩

theorem generateStmtSeq_prefix (statements : List IRStatement) (lvl : Nat)
    (flag : Bool) (rt : Option IRType) :
    ∀ l ∈ generateStmtSeq statements lvl flag rt, ∃ s, l = indent lvl ++ s := by
  intro l hl
  match statements with
  | [] => simp [generateStmtSeq] at hl
  | [s] => exact generateStatement_prefix s lvl flag rt l hl
  | s :: s2 :: rest =>
    have hsplit : generateStmtSeq (s :: s2 :: rest) lvl flag rt
        = generateStatement s lvl false rt
          ++ generateStmtSeq (s2 :: rest) lvl flag rt := rfl
    rw [hsplit, List.mem_append] at hl
    rcases hl with hA | hB
    · exact generateStatement_prefix s lvl false rt l hA
    · exact generateStmtSeq_prefix (s2 :: rest) lvl flag rt l hB

theorem generateSwitchCases_prefix (cases : List SwitchCase) (lvl : Nat)
    (rt : Option IRType) :
    ∀ l ∈ generateSwitchCases cases (indent lvl) lvl rt,
      ∃ s, l = indent lvl ++ s := by
  intro l hl
  match cases with
  | [] => simp [generateSwitchCases] at hl
  | .mk value body ft :: rest =>
    cases value with
    | none =>
      simp only [generateSwitchCases, List.mem_append, List.mem_singleton] at hl
      rcases hl with ((rfl | hA) | rfl) | hB
      · exact ⟨_, rfl⟩
      · obtain ⟨s, rfl⟩ := generateStmtSeq_prefix body (lvl + 2) _ rt _ hA
        rw [indent_add_two, String.append_assoc]
        exact ⟨_, rfl⟩
      · exact ⟨_, rfl⟩
      · exact generateSwitchCases_prefix rest lvl rt l hB
    | some v =>
      simp only [generateSwitchCases, List.mem_append, List.mem_singleton] at hl
      rcases hl with ((rfl | hA) | rfl) | hB
      · simp only [String.append_assoc]
        exact ⟨_, rfl⟩
      · obtain ⟨s, rfl⟩ := generateStmtSeq_prefix body (lvl + 2) _ rt _ hA
        rw [indent_add_two, String.append_assoc]
        exact ⟨_, rfl⟩
      · exact ⟨_, rfl⟩
      · exact generateSwitchCases_prefix rest lvl rt l hB

theorem generateMatchArms_prefix (arms : List MatchArm) (lvl : Nat)
    (rt : Option IRType) :
    ∀ l ∈ generateMatchArms arms (indent lvl) lvl rt,
      ∃ s, l = indent lvl ++ s := by
  intro l hl
  match arms with
  | [] => simp [generateMatchArms] at hl
  | .mk p g body :: rest =>
    simp only [generateMatchArms, List.mem_append, List.mem_singleton] at hl
    rcases hl with ((rfl | hA) | rfl) | hB
    · simp only [String.append_assoc]
      exact ⟨_, rfl⟩
    · obtain ⟨s, rfl⟩ := generateStmtSeq_prefix body (lvl + 2) _ rt _ hA
      rw [indent_add_two, String.append_assoc]
      exact ⟨_, rfl⟩
    · exact ⟨_, rfl⟩
    · exact generateMatchArms_prefix rest lvl rt l hB

end

/-- Lowering a case list yields exactly one wildcard arm line per default
case, provided no value case's generated discriminant literal is itself
the string underscore. -/
theorem countP_generateSwitchCases (cases : List SwitchCase) (lvl : Nat)
    (rt : Option IRType)
    (hv : ∀ c ∈ cases, ∀ v bs ft, c = SwitchCase.mk (some v) bs ft →
      generateExpression v ≠ "_") :
    (generateSwitchCases cases (indent lvl) lvl rt).countP
        (wildcardPred (indent lvl))
      = cases.countP (fun c => match c with | .mk v _ _ => v.isNone) := by
  induction cases with
  | nil => simp [generateSwitchCases]
  | cons c rest ih =>
    obtain ⟨value, body, ft⟩ := c
    have hrest : ∀ c ∈ rest, ∀ v bs ft, c = SwitchCase.mk (some v) bs ft →
        generateExpression v ≠ "_" :=
      fun c hc => hv c (List.mem_cons_of_mem _ hc)
    have hbody : (generateStmtSeq body (lvl + 2) false rt).countP
        (wildcardPred (indent lvl)) = 0 := by
      rw [List.countP_eq_zero]
      intro l hlm
      obtain ⟨s, rfl⟩ := generateStmtSeq_prefix body (lvl + 2) false rt l hlm
      rw [indent_add_two]
      simp [not_wildcard_inner]
    have h2 : List.countP (wildcardPred (indent lvl))
        [indent lvl ++ "    \x7d"] = 0 := by
      simp [List.countP_cons, not_wildcard_closer]
    cases value with
    | none =>
      have e1 : generateSwitchCases (SwitchCase.mk none body ft :: rest)
          (indent lvl) lvl rt
          = [indent lvl ++ "    _ => \x7b"]
            ++ generateStmtSeq body (lvl + 2) false rt
            ++ [indent lvl ++ "    \x7d"]
            ++ generateSwitchCases rest (indent lvl) lvl rt := rfl
      have h1 : List.countP (wildcardPred (indent lvl))
          [indent lvl ++ "    _ => \x7b"] = 1 := by
        simp [List.countP_cons, wildcard_default_header]
      rw [e1, List.countP_append, List.countP_append, List.countP_append,
        h1, h2, hbody, ih hrest]
      simp [List.countP_cons]
      omega
    | some v =>
      have e1 : generateSwitchCases (SwitchCase.mk (some v) body ft :: rest)
          (indent lvl) lvl rt
          = [indent lvl ++ "    " ++ generateExpression v ++ " => \x7b"]
            ++ generateStmtSeq body (lvl + 2) false rt
            ++ [indent lvl ++ "    \x7d"]
            ++ generateSwitchCases rest (indent lvl) lvl rt := rfl
      have hne : generateExpression v ≠ "_" :=
        hv _ (List.mem_cons_self _ _) v body ft rfl
      have h1 : List.countP (wildcardPred (indent lvl))
          [indent lvl ++ "    " ++ generateExpression v ++ " => \x7b"] = 0 := by
        simp [List.countP_cons, not_wildcard_value_header (indent lvl)
          (generateExpression v) hne]
      rw [e1, List.countP_append, List.countP_append, List.countP_append,
        h1, h2, hbody, ih hrest]
      simp [List.countP_cons]

/-- C10: the lowering of a switch statement produces exactly one wildcard
match arm — either the arm of its (at most one) default case, or the
appended empty catch-all arm when it has none — whenever the switch has at
most one default case and no value case's generated discriminant is the
literal underscore.  (A degenerate switch with several default cases
produces one wildcard arm per default case instead; see the
counterexample.) -/
theorem C10_amended (disc : IRExpression) (cases : List SwitchCase) (lvl : Nat)
    (rt : Option IRType)
    (hone : cases.countP (fun c => match c with | .mk v _ _ => v.isNone) ≤ 1)
    (hv : ∀ c ∈ cases, ∀ v bs ft, c = SwitchCase.mk (some v) bs ft →
      generateExpression v ≠ "_") :
    countWildcardArmLines
      (generateSwitch disc cases (indent lvl) lvl rt) (indent lvl) = 1 := by
  have hhdr : List.countP (wildcardPred (indent lvl))
      [indent lvl ++ "match " ++ generateExpression disc ++ " \x7b"] = 0 := by
    simp [List.countP_cons, not_wildcard_header]
  have hftr : List.countP (wildcardPred (indent lvl))
      [indent lvl ++ "\x7d"] = 0 := by
    simp [List.countP_cons, not_wildcard_footer]
  have hcases := countP_generateSwitchCases cases lvl rt hv
  rw [countWildcardArmLines, generateSwitch, List.countP_append,
    List.countP_append, List.countP_append, hhdr, hftr, hcases]
  by_cases hany : cases.any (fun c => match c with | .mk v _ _ => v.isNone) = true
  · have hpos : 0 < cases.countP
        (fun c => match c with | .mk v _ _ => v.isNone) := by
      rw [List.countP_pos]
      exact List.any_eq_true.mp hany
    rw [if_pos hany]
    simp only [List.countP_nil]
    omega
  · have hzero : cases.countP
        (fun c => match c with | .mk v _ _ => v.isNone) = 0 := by
      rw [List.countP_eq_zero]
      intro a ha hpa
      exact hany (List.any_eq_true.mpr ⟨a, ha, hpa⟩)
    rw [if_neg hany, hzero]
    simp [List.countP_cons, wildcard_catchall]

/-- C10 witness: a switch with one value case (generating the literal `1`)
and one default case lowers to exactly one wildcard arm line. -/
theorem C10_amended_witness :
    countWildcardArmLines
      (generateSwitch (.literal (.numInt 1) (.primitive "i32") (some true))
        c10Switch (indent 0) 0 none) (indent 0) = 1 := by
  refine C10_amended _ _ 0 none (by decide) ?_
  intro c hc v bs ft heq
  simp only [c10Switch, List.mem_cons, List.not_mem_nil, or_false] at hc
  rcases hc with rfl | rfl
  · injection heq with h1 h2 h3
    injection h1 with h1
    subst h1
    decide
  · exact absurd heq (by simp)

/-! ## Claim C3 — mutually recursive aggregates are never tagged -/

theorem runPass_cons_struct_mem (c : List String) (s : IRStruct)
    (rest : List IRDeclaration) (h : c.contains s.name = true) :
    runPass c (.structD s :: rest)
      = ((runPass c rest).1, .structD s :: (runPass c rest).2.1,
          (runPass c rest).2.2) := by
  have hmem : s.name ∈ c := by simpa using h
  rcases h1 : runPass c rest with ⟨c1, r1, b1⟩
  simp [runPass, hmem, h1]

theorem runPass_cons_struct_copy (c : List String) (s : IRStruct)
    (rest : List IRDeclaration) (h : c.contains s.name = false)
    (hall : s.fields.all (fun f => isFieldTypeCopy c f.ty) = true) :
    runPass c (.structD s :: rest)
      = ((runPass (setAdd c s.name) rest).1,
          .structD { s with derives := pushCopy s.derives }
            :: (runPass (setAdd c s.name) rest).2.1,
          true) := by
  have hmem : s.name ∉ c := by simpa using h
  have hall' : ∀ f ∈ s.fields, isFieldTypeCopy c f.ty = true :=
    List.all_eq_true.mp hall
  rcases h2 : runPass (setAdd c s.name) rest with ⟨c2, r2, b2⟩
  simp [runPass, hmem, hall', h2]
  intro x hx hfalse
  rw [hall' x hx] at hfalse
  exact absurd hfalse (by decide)

theorem runPass_cons_struct_skip (c : List String) (s : IRStruct)
    (rest : List IRDeclaration) (h : c.contains s.name = false)
    (hall : s.fields.all (fun f => isFieldTypeCopy c f.ty) = false) :
    runPass c (.structD s :: rest)
      = ((runPass c rest).1, .structD s :: (runPass c rest).2.1,
          (runPass c rest).2.2) := by
  have hmem : s.name ∉ c := by simpa using h
  have hnall : ¬ ∀ f ∈ s.fields, isFieldTypeCopy c f.ty = true := by
    intro hforall
    rw [← List.all_eq_true] at hforall
    rw [hforall] at hall
    exact absurd hall (by decide)
  rcases h1 : runPass c rest with ⟨c1, r1, b1⟩
  simp [runPass, hmem, hnall, h1]

theorem runPass_cons_nonstruct (c : List String) (d : IRDeclaration)
    (rest : List IRDeclaration) (hd : ∀ s : IRStruct, d ≠ .structD s) :
    runPass c (d :: rest)
      = ((runPass c rest).1, d :: (runPass c rest).2.1,
          (runPass c rest).2.2) := by
  rcases h1 : runPass c rest with ⟨c1, r1, b1⟩
  cases d with
  | structD s => exact absurd rfl (hd s)
  | enumD e => simp [runPass, h1]
  | typeAliasD t => simp [runPass, h1]
  | functionD f => simp [runPass, h1]
  | implD i => simp [runPass, h1]

/-- One pass of the fixpoint loop preserves the configuration in which two
mutually recursive structs `A` and `B` are untagged: neither name enters
the copy set, the two declarations survive unchanged, and the name/enum
side conditions are re-established for the updated declaration list. -/
theorem runPass_pair (A B : IRStruct)
    (hAf : ∃ f ∈ A.fields, f.ty = IRType.structT B.name)
    (hBf : ∃ f ∈ B.fields, f.ty = IRType.structT A.name)
    (ds : List IRDeclaration) :
    ∀ c : List String,
      A.name ∉ c → B.name ∉ c →
      (∀ s : IRStruct, .structD s ∈ ds → s.name = A.name → s = A) →
      (∀ s : IRStruct, .structD s ∈ ds → s.name = B.name → s = B) →
      (∀ e : IREnum, .enumD e ∈ ds → e.name ≠ A.name ∧ e.name ≠ B.name) →
      A.name ∉ (runPass c ds).1 ∧ B.name ∉ (runPass c ds).1
      ∧ (IRDeclaration.structD A ∈ ds →
          IRDeclaration.structD A ∈ (runPass c ds).2.1)
      ∧ (IRDeclaration.structD B ∈ ds →
          IRDeclaration.structD B ∈ (runPass c ds).2.1)
      ∧ (∀ s : IRStruct, .structD s ∈ (runPass c ds).2.1 →
          s.name = A.name → s = A)
      ∧ (∀ s : IRStruct, .structD s ∈ (runPass c ds).2.1 →
          s.name = B.name → s = B)
      ∧ (∀ e : IREnum, .enumD e ∈ (runPass c ds).2.1 →
          e.name ≠ A.name ∧ e.name ≠ B.name) := by
  induction ds with
  | nil =>
    intro c hAc hBc _ _ _
    refine ⟨hAc, hBc, ?_, ?_, ?_, ?_, ?_⟩ <;> simp [runPass]
  | cons d rest ih =>
    intro c hAc hBc hsA hsB hen
    have hsA' : ∀ s : IRStruct, .structD s ∈ rest → s.name = A.name → s = A :=
      fun s hs => hsA s (List.mem_cons_of_mem _ hs)
    have hsB' : ∀ s : IRStruct, .structD s ∈ rest → s.name = B.name → s = B :=
      fun s hs => hsB s (List.mem_cons_of_mem _ hs)
    have hen' : ∀ e : IREnum, .enumD e ∈ rest →
        e.name ≠ A.name ∧ e.name ≠ B.name :=
      fun e he => hen e (List.mem_cons_of_mem _ he)
    by_cases hd : ∃ s' : IRStruct, d = .structD s'
    · obtain ⟨s, rfl⟩ := hd
      cases hcont : c.contains s.name with
      | true =>
        obtain ⟨h1, h2, h3, h4, h5, h6, h7⟩ := ih c hAc hBc hsA' hsB' hen'
        simp only [runPass_cons_struct_mem c s rest hcont]
        refine ⟨h1, h2, ?_, ?_, ?_, ?_, ?_⟩
        · intro hmem
          rcases List.mem_cons.mp hmem with heq | hmem'
          · rw [heq]
            exact List.mem_cons_self _ _
          · exact List.mem_cons_of_mem _ (h3 hmem')
        · intro hmem
          rcases List.mem_cons.mp hmem with heq | hmem'
          · rw [heq]
            exact List.mem_cons_self _ _
          · exact List.mem_cons_of_mem _ (h4 hmem')
        · intro s' hs' hname
          rcases List.mem_cons.mp hs' with heq | hmem'
          · injection heq with hss
            subst hss
            exact hsA s' (List.mem_cons_self _ _) hname
          · exact h5 s' hmem' hname
        · intro s' hs' hname
          rcases List.mem_cons.mp hs' with heq | hmem'
          · injection heq with hss
            subst hss
            exact hsB s' (List.mem_cons_self _ _) hname
          · exact h6 s' hmem' hname
        · intro e' he'
          rcases List.mem_cons.mp he' with heq | hmem'
          · exact absurd heq (by simp)
          · exact h7 e' hmem'
      | false =>
        cases hall : s.fields.all (fun f => isFieldTypeCopy c f.ty) with
        | false =>
          obtain ⟨h1, h2, h3, h4, h5, h6, h7⟩ := ih c hAc hBc hsA' hsB' hen'
          simp only [runPass_cons_struct_skip c s rest hcont hall]
          refine ⟨h1, h2, ?_, ?_, ?_, ?_, ?_⟩
          · intro hmem
            rcases List.mem_cons.mp hmem with heq | hmem'
            · rw [heq]
              exact List.mem_cons_self _ _
            · exact List.mem_cons_of_mem _ (h3 hmem')
          · intro hmem
            rcases List.mem_cons.mp hmem with heq | hmem'
            · rw [heq]
              exact List.mem_cons_self _ _
            · exact List.mem_cons_of_mem _ (h4 hmem')
          · intro s' hs' hname
            rcases List.mem_cons.mp hs' with heq | hmem'
            · injection heq with hss
              subst hss
              exact hsA s' (List.mem_cons_self _ _) hname
            · exact h5 s' hmem' hname
          · intro s' hs' hname
            rcases List.mem_cons.mp hs' with heq | hmem'
            · injection heq with hss
              subst hss
              exact hsB s' (List.mem_cons_self _ _) hname
            · exact h6 s' hmem' hname
          · intro e' he'
            rcases List.mem_cons.mp he' with heq | hmem'
            · exact absurd heq (by simp)
            · exact h7 e' hmem'
        | true =>
          have hsnA : s.name ≠ A.name := by
            intro hname
            have hsa := hsA s (List.mem_cons_self _ _) hname
            subst hsa
            obtain ⟨f, hf, hfty⟩ := hAf
            have hft := List.all_eq_true.mp hall f hf
            rw [hfty] at hft
            simp only [isFieldTypeCopy] at hft
            exact hBc (by simpa using hft)
          have hsnB : s.name ≠ B.name := by
            intro hname
            have hsb := hsB s (List.mem_cons_self _ _) hname
            subst hsb
            obtain ⟨f, hf, hfty⟩ := hBf
            have hft := List.all_eq_true.mp hall f hf
            rw [hfty] at hft
            simp only [isFieldTypeCopy] at hft
            exact hAc (by simpa using hft)
          have hA2 : A.name ∉ setAdd c s.name := by
            rw [mem_setAdd]
            rintro (h | h)
            · exact hAc h
            · exact hsnA h.symm
          have hB2 : B.name ∉ setAdd c s.name := by
            rw [mem_setAdd]
            rintro (h | h)
            · exact hBc h
            · exact hsnB h.symm
          obtain ⟨h1, h2, h3, h4, h5, h6, h7⟩ :=
            ih (setAdd c s.name) hA2 hB2 hsA' hsB' hen'
          simp only [runPass_cons_struct_copy c s rest hcont hall]
          refine ⟨h1, h2, ?_, ?_, ?_, ?_, ?_⟩
          · intro hmem
            rcases List.mem_cons.mp hmem with heq | hmem'
            · injection heq with hAs
              exact absurd (congrArg IRStruct.name hAs)
                (fun h => hsnA h.symm)
            · exact List.mem_cons_of_mem _ (h3 hmem')
          · intro hmem
            rcases List.mem_cons.mp hmem with heq | hmem'
            · injection heq with hBs
              exact absurd (congrArg IRStruct.name hBs)
                (fun h => hsnB h.symm)
            · exact List.mem_cons_of_mem _ (h4 hmem')
          · intro s' hs' hname
            rcases List.mem_cons.mp hs' with heq | hmem'
            · injection heq with hss
              subst hss
              exact absurd hname hsnA
            · exact h5 s' hmem' hname
          · intro s' hs' hname
            rcases List.mem_cons.mp hs' with heq | hmem'
            · injection heq with hss
              subst hss
              exact absurd hname hsnB
            · exact h6 s' hmem' hname
          · intro e' he'
            rcases List.mem_cons.mp he' with heq | hmem'
            · exact absurd heq (by simp)
            · exact h7 e' hmem'
    · push_neg at hd
      obtain ⟨h1, h2, h3, h4, h5, h6, h7⟩ := ih c hAc hBc hsA' hsB' hen'
      simp only [runPass_cons_nonstruct c d rest (fun s hds => hd s hds)]
      refine ⟨h1, h2, ?_, ?_, ?_, ?_, ?_⟩
      · intro hmem
        rcases List.mem_cons.mp hmem with heq | hmem'
        · exact absurd heq.symm (hd A)
        · exact List.mem_cons_of_mem _ (h3 hmem')
      · intro hmem
        rcases List.mem_cons.mp hmem with heq | hmem'
        · exact absurd heq.symm (hd B)
        · exact List.mem_cons_of_mem _ (h4 hmem')
      · intro s' hs' hname
        rcases List.mem_cons.mp hs' with heq | hmem'
        · exact absurd heq.symm (hd s')
        · exact h5 s' hmem' hname
      · intro s' hs' hname
        rcases List.mem_cons.mp hs' with heq | hmem'
        · exact absurd heq.symm (hd s')
        · exact h6 s' hmem' hname
      · intro e' he'
        rcases List.mem_cons.mp he' with heq | hmem'
        · refine hen e' ?_
          rw [heq]
          exact List.mem_cons_self _ _
        · exact h7 e' hmem'

/-- The whole fixpoint loop preserves the mutually-recursive-pair
configuration, for every fuel value. -/
theorem derivesLoop_pair (A B : IRStruct)
    (hAf : ∃ f ∈ A.fields, f.ty = IRType.structT B.name)
    (hBf : ∃ f ∈ B.fields, f.ty = IRType.structT A.name) :
    ∀ (fuel : Nat) (c : List String) (ds : List IRDeclaration),
      A.name ∉ c → B.name ∉ c →
      (∀ s : IRStruct, .structD s ∈ ds → s.name = A.name → s = A) →
      (∀ s : IRStruct, .structD s ∈ ds → s.name = B.name → s = B) →
      (∀ e : IREnum, .enumD e ∈ ds → e.name ≠ A.name ∧ e.name ≠ B.name) →
      A.name ∉ (derivesLoop fuel c ds).1 ∧ B.name ∉ (derivesLoop fuel c ds).1
      ∧ (IRDeclaration.structD A ∈ ds →
          IRDeclaration.structD A ∈ (derivesLoop fuel c ds).2)
      ∧ (IRDeclaration.structD B ∈ ds →
          IRDeclaration.structD B ∈ (derivesLoop fuel c ds).2) := by
  intro fuel
  induction fuel with
  | zero =>
    intro c ds hAc hBc _ _ _
    exact ⟨hAc, hBc, id, id⟩
  | succ n ih =>
    intro c ds hAc hBc hsA hsB hen
    obtain ⟨h1, h2, h3, h4, h5, h6, h7⟩ :=
      runPass_pair A B hAf hBf ds c hAc hBc hsA hsB hen
    rcases hrp : runPass c ds with ⟨c', ds', ch⟩
    rw [hrp] at h1 h2 h3 h4 h5 h6 h7
    cases ch with
    | true =>
      simp only [derivesLoop, hrp, if_true]
      obtain ⟨g1, g2, g3, g4⟩ := ih c' ds' h1 h2 h5 h6 h7
      exact ⟨g1, g2, fun hm => g3 (h3 hm), fun hm => g4 (h4 hm)⟩
    | false =>
      simp only [derivesLoop, hrp, Bool.false_eq_true, if_false]
      exact ⟨h1, h2, h3, h4⟩

/-- C3: two aggregate declarations with fields of each other's type are
never tagged duplicable by the derive-closure, for any iteration cap of
size at least 2: neither name enters the final copy-type set, and both
declarations survive in the output unchanged (in particular without a
pushed "Copy" derive). -/
theorem C3_mutual_recursion_never_tagged (A B : IRStruct)
    (decls : List IRDeclaration) (cap : Nat)
    (hcap : 2 ≤ cap)
    (hAB : A.name ≠ B.name)
    (hAmem : IRDeclaration.structD A ∈ decls)
    (hBmem : IRDeclaration.structD B ∈ decls)
    (hAf : ∃ f ∈ A.fields, f.ty = IRType.structT B.name)
    (hBf : ∃ f ∈ B.fields, f.ty = IRType.structT A.name)
    (hsA : ∀ s : IRStruct, .structD s ∈ decls → s.name = A.name → s = A)
    (hsB : ∀ s : IRStruct, .structD s ∈ decls → s.name = B.name → s = B)
    (hen : ∀ e : IREnum, .enumD e ∈ decls →
      e.name ≠ A.name ∧ e.name ≠ B.name) :
    A.name ∉ (optimizeDerivesWithCap cap decls).1
    ∧ B.name ∉ (optimizeDerivesWithCap cap decls).1
    ∧ IRDeclaration.structD A ∈ (optimizeDerivesWithCap cap decls).2
    ∧ IRDeclaration.structD B ∈ (optimizeDerivesWithCap cap decls).2 := by
  have hAc : A.name ∉ collectCopyEnums decls := by
    intro hmem
    obtain ⟨e, he, hname, _⟩ := (mem_collectCopyEnums decls A.name).mp hmem
    exact (hen e he).1 hname
  have hBc : B.name ∉ collectCopyEnums decls := by
    intro hmem
    obtain ⟨e, he, hname, _⟩ := (mem_collectCopyEnums decls B.name).mp hmem
    exact (hen e he).2 hname
  obtain ⟨h1, h2, h3, h4⟩ :=
    derivesLoop_pair A B hAf hBf cap (collectCopyEnums decls) decls
      hAc hBc hsA hsB hen
  exact ⟨h1, h2, h3 hAmem, h4 hBmem⟩

/-- C3 witness: the concrete mutually recursive pair `c3StructA`,
`c3StructB` is never tagged with iteration cap 2. -/
theorem C3_witness :
    c3StructA.name ∉ (optimizeDerivesWithCap 2 c3Decls).1
    ∧ c3StructB.name ∉ (optimizeDerivesWithCap 2 c3Decls).1
    ∧ IRDeclaration.structD c3StructA ∈ (optimizeDerivesWithCap 2 c3Decls).2
    ∧ IRDeclaration.structD c3StructB ∈ (optimizeDerivesWithCap 2 c3Decls).2 := by
  refine C3_mutual_recursion_never_tagged c3StructA c3StructB c3Decls 2
    (by decide) (by decide) ?_ ?_ ?_ ?_ ?_ ?_ ?_
  · simp [c3Decls]
  · simp [c3Decls]
  · exact ⟨{ name := "b", ty := .structT "B", isPublic := true },
      by simp [c3StructA], rfl⟩
  · exact ⟨{ name := "a", ty := .structT "A", isPublic := true },
      by simp [c3StructB], rfl⟩
  · intro s hs hname
    simp only [c3Decls, List.mem_cons, List.not_mem_nil, or_false,
      IRDeclaration.structD.injEq] at hs
    rcases hs with rfl | rfl
    · rfl
    · exact absurd hname (by decide)
  · intro s hs hname
    simp only [c3Decls, List.mem_cons, List.not_mem_nil, or_false,
      IRDeclaration.structD.injEq] at hs
    rcases hs with rfl | rfl
    · exact absurd hname (by decide)
    · rfl
  · intro e he
    simp only [c3Decls, List.mem_cons, List.not_mem_nil, or_false] at he
    rcases he with heq | heq <;> exact absurd heq (by simp)

/-! ## Claim C4 — idempotence of the derive-closure -/

theorem pushCopy_idem (d : List String) : pushCopy (pushCopy d) = pushCopy d := by
  unfold pushCopy
  by_cases h : d.contains "Copy" = true
  · rw [if_pos h, if_pos h]
  · have hcc : (d ++ ["Copy"]).contains "Copy" = true := by simp
    rw [if_neg h, if_pos hcc]

theorem relD_refl (d : IRDeclaration) : relD d d := Or.inl rfl

theorem relD_trans {a b c : IRDeclaration} (h1 : relD a b) (h2 : relD b c) :
    relD a c := by
  rcases h1 with rfl | ⟨s, rfl, rfl⟩
  · exact h2
  · rcases h2 with rfl | ⟨s', heq, rfl⟩
    · exact Or.inr ⟨s, rfl, rfl⟩
    · injection heq with hss
      subst hss
      refine Or.inr ⟨s, rfl, ?_⟩
      simp [pushCopy_idem]

theorem relD_push_elim (s : IRStruct) (b : IRDeclaration)
    (h : relD (.structD { s with derives := pushCopy s.derives }) b) :
    b = .structD { s with derives := pushCopy s.derives } := by
  rcases h with rfl | ⟨s', heq, hb⟩
  · rfl
  · injection heq with hss
    subst hss
    rw [hb]
    simp [pushCopy_idem]

theorem relD_nonstruct_elim {d b : IRDeclaration}
    (hd : ∀ s : IRStruct, d ≠ .structD s) (h : relD d b) : b = d := by
  rcases h with rfl | ⟨s', heq, _⟩
  · rfl
  · exact absurd heq (hd s')

theorem forall₂_relD_trans :
    ∀ {l1 l2 l3 : List IRDeclaration}, List.Forall₂ relD l1 l2 →
      List.Forall₂ relD l2 l3 → List.Forall₂ relD l1 l3 := by
  intro l1 l2 l3 h1
  induction h1 generalizing l3 with
  | nil =>
    intro h2
    cases h2
    exact List.Forall₂.nil
  | cons hab htl ih =>
    intro h2
    cases h2 with
    | cons hbc htl2 => exact List.Forall₂.cons (relD_trans hab hbc) (ih htl2)

/-- A single pass only rewrites declarations along `relD`. -/
theorem runPass_extend (ds : List IRDeclaration) :
    ∀ c : List String, List.Forall₂ relD ds (runPass c ds).2.1 := by
  induction ds with
  | nil =>
    intro c
    simp only [runPass]
    exact List.Forall₂.nil
  | cons d rest ih =>
    intro c
    by_cases hd : ∃ s' : IRStruct, d = .structD s'
    · obtain ⟨s, rfl⟩ := hd
      cases hcont : c.contains s.name with
      | true =>
        rw [runPass_cons_struct_mem c s rest hcont]
        exact List.Forall₂.cons (relD_refl _) (ih c)
      | false =>
        cases hall : s.fields.all (fun f => isFieldTypeCopy c f.ty) with
        | true =>
          rw [runPass_cons_struct_copy c s rest hcont hall]
          exact List.Forall₂.cons (Or.inr ⟨s, rfl, rfl⟩) (ih (setAdd c s.name))
        | false =>
          rw [runPass_cons_struct_skip c s rest hcont hall]
          exact List.Forall₂.cons (relD_refl _) (ih c)
    · push_neg at hd
      rw [runPass_cons_nonstruct c d rest hd]
      exact List.Forall₂.cons (relD_refl _) (ih c)

/-- The whole loop only rewrites declarations along `relD`. -/
theorem derivesLoop_extend (fuel : Nat) :
    ∀ (c : List String) (ds : List IRDeclaration),
      List.Forall₂ relD ds (derivesLoop fuel c ds).2 := by
  induction fuel with
  | zero =>
    intro c ds
    exact List.forall₂_same.mpr (fun d _ => relD_refl d)
  | succ n ih =>
    intro c ds
    have hpass := runPass_extend ds c
    rcases hrp : runPass c ds with ⟨c', ds', ch⟩
    rw [hrp] at hpass
    cases ch with
    | true =>
      simp only [derivesLoop, hrp, if_true]
      exact forall₂_relD_trans hpass (ih c' ds')
    | false =>
      simp only [derivesLoop, hrp, Bool.false_eq_true, if_false]
      exact hpass

/-- A pass that reports no change returns its declaration list unchanged. -/
theorem runPass_nochange (ds : List IRDeclaration) :
    ∀ c : List String, (runPass c ds).2.2 = false → (runPass c ds).2.1 = ds := by
  induction ds with
  | nil =>
    intro c _
    simp [runPass]
  | cons d rest ih =>
    intro c hf
    by_cases hd : ∃ s' : IRStruct, d = .structD s'
    · obtain ⟨s, rfl⟩ := hd
      cases hcont : c.contains s.name with
      | true =>
        rw [runPass_cons_struct_mem c s rest hcont] at hf ⊢
        rw [ih c hf]
      | false =>
        cases hall : s.fields.all (fun f => isFieldTypeCopy c f.ty) with
        | true =>
          rw [runPass_cons_struct_copy c s rest hcont hall] at hf
          exact absurd hf (by simp)
        | false =>
          rw [runPass_cons_struct_skip c s rest hcont hall] at hf ⊢
          rw [ih c hf]
    · push_neg at hd
      rw [runPass_cons_nonstruct c d rest hd] at hf ⊢
      rw [ih c hf]

/-- Replaying a pass with the same starting set over any `relD`-extension of
its output changes nothing: the extension already carries every "Copy" the
pass would push, and qualification never reads the derive lists. -/
theorem runPass_replay (ds : List IRDeclaration) :
    ∀ (c : List String) (ds2 : List IRDeclaration),
      List.Forall₂ relD (runPass c ds).2.1 ds2 →
      runPass c ds2 = ((runPass c ds).1, ds2, (runPass c ds).2.2) := by
  induction ds with
  | nil =>
    intro c ds2 hrel
    simp only [runPass] at hrel ⊢
    cases hrel
    rfl
  | cons d rest ih =>
    intro c ds2 hrel
    by_cases hd : ∃ s' : IRStruct, d = .structD s'
    · obtain ⟨s, rfl⟩ := hd
      cases hcont : c.contains s.name with
      | true =>
        rw [runPass_cons_struct_mem c s rest hcont] at hrel ⊢
        cases hrel with
        | cons hdd htl =>
          rcases hdd with rfl | ⟨s', heq, hb⟩
          · rename_i l2
            rw [runPass_cons_struct_mem c s l2 hcont, ih c l2 htl]
          · rename_i b l2
            injection heq with hss
            subst hss
            subst hb
            have hcont2 : c.contains
                ({ s with derives := pushCopy s.derives } : IRStruct).name
                  = true := hcont
            rw [runPass_cons_struct_mem c _ l2 hcont2, ih c l2 htl]
      | false =>
        cases hall : s.fields.all (fun f => isFieldTypeCopy c f.ty) with
        | true =>
          rw [runPass_cons_struct_copy c s rest hcont hall] at hrel ⊢
          cases hrel with
          | cons hdd htl =>
            rename_i b l2
            have hb := relD_push_elim s b hdd
            subst hb
            have hcont2 : c.contains
                ({ s with derives := pushCopy s.derives } : IRStruct).name
                  = false := hcont
            have hall2 :
                ({ s with derives := pushCopy s.derives } : IRStruct).fields.all
                  (fun f => isFieldTypeCopy c f.ty) = true := hall
            rw [runPass_cons_struct_copy c _ l2 hcont2 hall2]
            have hih := ih (setAdd c s.name) l2 htl
            have hset : setAdd c
                ({ s with derives := pushCopy s.derives } : IRStruct).name
                  = setAdd c s.name := rfl
            rw [hset, hih]
            simp [pushCopy_idem]
        | false =>
          rw [runPass_cons_struct_skip c s rest hcont hall] at hrel ⊢
          cases hrel with
          | cons hdd htl =>
            rcases hdd with rfl | ⟨s', heq, hb⟩
            · rename_i l2
              rw [runPass_cons_struct_skip c s l2 hcont hall, ih c l2 htl]
            · rename_i b l2
              injection heq with hss
              subst hss
              subst hb
              have hcont2 : c.contains
                  ({ s with derives := pushCopy s.derives } : IRStruct).name
                    = false := hcont
              have hall2 :
                  ({ s with derives := pushCopy s.derives } : IRStruct).fields.all
                    (fun f => isFieldTypeCopy c f.ty) = false := hall
              rw [runPass_cons_struct_skip c _ l2 hcont2 hall2, ih c l2 htl]
    · push_neg at hd
      rw [runPass_cons_nonstruct c d rest hd] at hrel ⊢
      cases hrel with
      | cons hdd htl =>
        rename_i b l2
        have hb := relD_nonstruct_elim hd hdd
        subst hb
        rw [runPass_cons_nonstruct c b l2 hd, ih c l2 htl]

/-- Re-running the fixpoint loop with the same seed on its own output
reproduces its result exactly. -/
theorem derivesLoop_idem (fuel : Nat) :
    ∀ (c : List String) (ds : List IRDeclaration),
      derivesLoop fuel c ((derivesLoop fuel c ds).2) = derivesLoop fuel c ds := by
  induction fuel with
  | zero =>
    intro c ds
    rfl
  | succ n ih =>
    intro c ds
    rcases hrp : runPass c ds with ⟨c1, ds1, ch⟩
    cases ch with
    | true =>
      have hX : (derivesLoop (n + 1) c ds).2 = (derivesLoop n c1 ds1).2 := by
        simp only [derivesLoop, hrp, if_true]
      have hrel : List.Forall₂ relD (runPass c ds).2.1 (derivesLoop n c1 ds1).2 := by
        rw [hrp]
        exact derivesLoop_extend n c1 ds1
      have hreplay := runPass_replay ds c ((derivesLoop n c1 ds1).2) hrel
      rw [hrp] at hreplay
      calc derivesLoop (n + 1) c ((derivesLoop (n + 1) c ds).2)
          = derivesLoop (n + 1) c ((derivesLoop n c1 ds1).2) := by rw [hX]
        _ = derivesLoop n c1 ((derivesLoop n c1 ds1).2) := by
            simp only [derivesLoop, hreplay, if_true]
        _ = derivesLoop n c1 ds1 := ih c1 ds1
        _ = derivesLoop (n + 1) c ds := by
            simp only [derivesLoop, hrp, if_true]
    | false =>
      have hnc : (runPass c ds).2.2 = false := by rw [hrp]
      have hds1 : (runPass c ds).2.1 = ds := runPass_nochange ds c hnc
      rw [hrp] at hds1
      have hds2 : ds1 = ds := hds1
      have hres : derivesLoop (n + 1) c ds = (c1, ds) := by
        simp only [derivesLoop, hrp, Bool.false_eq_true, if_false, hds2]
      rw [hres]
      exact hres

/-- Enum declarations (hence the seed) are invariant along `relD`. -/
theorem collect_eq_of_rel :
    ∀ {ds ds2 : List IRDeclaration}, List.Forall₂ relD ds ds2 →
      collectCopyEnums ds2 = collectCopyEnums ds := by
  have haux : ∀ {ds ds2 : List IRDeclaration}, List.Forall₂ relD ds ds2 →
      ∀ acc : List String,
        ds2.foldl
          (fun acc d =>
            match d with
            | .enumD e => if e.derives.contains "Copy" then setAdd acc e.name else acc
            | _ => acc) acc
        = ds.foldl
          (fun acc d =>
            match d with
            | .enumD e => if e.derives.contains "Copy" then setAdd acc e.name else acc
            | _ => acc) acc := by
    intro ds ds2 hrel
    induction hrel with
    | nil => intro acc; rfl
    | cons hdd htl ih =>
      intro acc
      rcases hdd with rfl | ⟨s, rfl, rfl⟩
      · simp only [List.foldl_cons]
        exact ih _
      · simp only [List.foldl_cons]
        exact ih _
  intro ds ds2 hrel
  unfold collectCopyEnums
  exact haux hrel []

/-- C4: the derive-closure is idempotent — running `optimizeDerives` on its
own output returns that output unchanged: the second run's seed is the same
(enum declarations are untouched), its pass dynamics replay the first
run's exactly (qualification never reads derive lists), and every "Copy"
push it attempts is already present. -/
theorem C4_idempotent (decls : List IRDeclaration) :
    optimizeDerives (optimizeDerives decls) = optimizeDerives decls := by
  unfold optimizeDerives optimizeDerivesWithCap
  rw [collect_eq_of_rel (derivesLoop_extend 10 (collectCopyEnums decls) decls),
    derivesLoop_idem 10 (collectCopyEnums decls) decls]

end TsToRust
